import Mathlib

/-!
# A verification development for the constraint solver core (CSSolver.cpp)

This file gives a shallow embedding of the search-engine core of the
type-inference constraint solver implemented in `lib/Sema/CSSolver.cpp`
and proves (or refutes) the specification claims about it.

Modelling conventions:
* Types (`swift::Type`) are modelled by the inductive `Ty` below, which
  carries exactly the structure the solver core inspects: type variables,
  opaque nominal leaves, tuples (with optionally labelled, optionally
  variadic fields), function types with an auto-closure flag, and l-value
  wrappers with an implicit-qualifier flag.
* External collaborators (the substitution store's `simplifyType`, the
  canonicalizer `getCanonicalType`, `TypeChecker::getSuperClassOf`,
  `TupleType::getFieldForScalarInit`, the per-constraint simplifier, the
  score comparison against the best solution, `findBestSolution`, default
  literal types, ...) are passed as explicit function parameters, exactly
  at the granularity the source consumes them.
* Pointers/identities (constraints, overloads, solutions, protocols,
  declarations) are modelled by natural-number identifiers; pointer
  identity in the source is identifier equality here.
* Machine integers: `SmallVector::size()` is a `size_t`; the unary minus
  applied to it in `PotentialBindings::operator<` therefore wraps modulo
  `2 ^ 64`, which the definition `usizeNeg` reproduces explicitly.
-/

mutual

/-- A type expression, at the granularity inspected by the solver core.
`tuple` fields are given by the auxiliary list-like inductive `Fields`;
each field has an optional label, a vararg flag and a type. -/
inductive Ty where
  | tvar : Nat → Ty
  | base : Nat → Ty
  | tuple : Fields → Ty
  | fn : Ty → Ty → Bool → Ty
  | lval : Ty → Bool → Ty

/-- The field list of a tuple type: each field carries an optional label,
a vararg flag and the field type. -/
inductive Fields where
  | nil : Fields
  | cons : Option Nat → Bool → Ty → Fields → Fields

end

mutual

/-- Decidable equality for `Ty` (pointer identity of canonicalized types
in the source is value equality here). -/
def Ty.beq : Ty → Ty → Bool
  | .tvar a, .tvar b => a == b
  | .base a, .base b => a == b
  | .tuple fa, .tuple fb => Fields.beq fa fb
  | .fn a r c, .fn a' r' c' => Ty.beq a a' && Ty.beq r r' && (c == c')
  | .lval t q, .lval t' q' => Ty.beq t t' && (q == q')
  | _, _ => false

/-- Decidable equality for `Fields`. -/
def Fields.beq : Fields → Fields → Bool
  | .nil, .nil => true
  | .cons n v t r, .cons n' v' t' r' =>
      (n == n') && (v == v') && Ty.beq t t' && Fields.beq r r'
  | _, _ => false

end

mutual

/-- Equality test `Ty.beq` is sound and complete for equality. -/
theorem tyBeq_iff : ∀ a b : Ty, Ty.beq a b = true ↔ a = b
  | .tvar a, b => by cases b <;> simp [Ty.beq]
  | .base a, b => by cases b <;> simp [Ty.beq]
  | .tuple fa, b => by
      cases b <;> simp [Ty.beq]
      exact fieldsBeq_iff fa _
  | .fn a r c, b => by
      cases b <;> simp [Ty.beq]
      rw [tyBeq_iff a _, tyBeq_iff r _]
      tauto
  | .lval t q, b => by
      cases b <;> simp [Ty.beq]
      rw [tyBeq_iff t _]
      tauto

/-- Equality test `Fields.beq` is sound and complete for equality. -/
theorem fieldsBeq_iff : ∀ a b : Fields, Fields.beq a b = true ↔ a = b
  | .nil, b => by cases b <;> simp [Fields.beq]
  | .cons n v t r, b => by
      cases b <;> simp [Fields.beq]
      rw [tyBeq_iff t _, fieldsBeq_iff r _]
      tauto

end

instance : DecidableEq Ty := fun a b =>
  decidable_of_iff (Ty.beq a b = true) (tyBeq_iff a b)

instance : DecidableEq Fields := fun a b =>
  decidable_of_iff (Fields.beq a b = true) (fieldsBeq_iff a b)

mutual

/-- Source `Type::getTypeVariables`: collect the identifiers of all type
variables occurring in a type. -/
def Ty.typeVariables : Ty → List Nat
  | .tvar n => [n]
  | .base _ => []
  | .tuple fs => Fields.typeVariables fs
  | .fn a r _ => Ty.typeVariables a ++ Ty.typeVariables r
  | .lval t _ => Ty.typeVariables t

/-- Type variables of all fields of a tuple. -/
def Fields.typeVariables : Fields → List Nat
  | .nil => []
  | .cons _ _ t r => Ty.typeVariables t ++ Fields.typeVariables r

end

/-- Source `Type::getRValueType`: strip an l-value wrapper, if any. -/
def Ty.getRValueType : Ty → Ty
  | .lval t _ => t
  | t => t

/-- Source check `type->getRValueType()->is<TypeVariableType>()` uses this
predicate: whether the type is a bare type variable. -/
def Ty.isTypeVariable : Ty → Bool
  | .tvar _ => true
  | _ => false

/-- Source `Type::hasTypeVariable`: whether any type variable occurs. -/
def Ty.hasTypeVariable (t : Ty) : Bool :=
  !t.typeVariables.isEmpty

/-- Source function `checkTypeOfBinding` (CSSolver.cpp, lines 49-71): check whether `type`
can be used as a binding for the type variable `typeVar`.  `simplify` is
the substitution store's `ConstraintSystem::simplifyType`.  A null input
type (`Option.none`) is rejected; the candidate is simplified, then
rejected if it references `typeVar` or if its rvalue is itself a bare
type variable; otherwise the simplified type is returned. -/
def checkTypeOfBinding (simplify : Ty → Ty) (typeVar : Nat) (type : Option Ty) :
    Option Ty :=
  match type with
  | none => none
  | some t =>
    let t := simplify t
    if (t.typeVariables.count typeVar) ≠ 0 then
      none
    else if t.getRValueType.isTypeVariable then
      none
    else
      some t

/-- The field list of a tuple as a plain Lean list of
(label, vararg, type) triples. -/
def Fields.toList : Fields → List (Option Nat × Bool × Ty)
  | .nil => []
  | .cons n v t r => (n, v, t) :: Fields.toList r

/-- The external collaborators consumed by
`ConstraintSystem::enumerateDirectSupertypes`:
`getFieldForScalarInit` (from `TupleType`), `getVarargBaseTy` (from
`TupleTypeElt`), `mayHaveSuperclass` (from `Type`) and `getSuperClassOf`
(from `TypeChecker`). -/
structure SupertypeOracles where
  getFieldForScalarInit : List (Option Nat × Bool × Ty) → Option Nat
  getVarargBaseTy : Ty → Ty
  mayHaveSuperclass : Ty → Bool
  getSuperClassOf : Ty → Option Ty

/-- Source function `ConstraintSystem::enumerateDirectSupertypes`
(CSSolver.cpp, lines 182-228), with its checks in source order: a scalar-initializable
tuple contributes its scalar field's base type (vararg base type for a
vararg field, the field type for a labelled field, nothing for an
unlabelled scalar field); an auto-closure function type contributes its
result; a type that may have a superclass contributes it when present;
an l-value with implicit qualifiers contributes its object type. -/
def enumerateDirectSupertypes (oc : SupertypeOracles) (type : Ty) : List Ty :=
  let result : List Ty := []
  let result := result ++
    (match type with
     | .tuple fs =>
       match oc.getFieldForScalarInit fs.toList with
       | some scalarIdx =>
         match fs.toList.get? scalarIdx with
         | some (name, isVar, elt) =>
           if isVar then [oc.getVarargBaseTy elt]
           else if name ≠ none then [elt]
           else []
         | none => []
       | none => []
     | _ => [])
  let result := result ++
    (match type with
     | .fn _ res autoClosure => if autoClosure then [res] else []
     | _ => [])
  let result := result ++
    (if oc.mayHaveSuperclass type then
       match oc.getSuperClassOf type with
       | some superclass => [superclass]
       | none => []
     else [])
  let result := result ++
    (match type with
     | .lval obj implicitQ => if implicitQ then [obj] else []
     | _ => [])
  result

/-- Modelled from the spec (section 4.7, "Supertype fallback"): the four
bullets describing which direct supertypes a type yields, written as the
concatenation of four independent case analyses. -/
def enumerateDirectSupertypesSpec (oc : SupertypeOracles) (type : Ty) : List Ty :=
  (match type with
   | .tuple fs =>
     match oc.getFieldForScalarInit fs.toList with
     | some scalarIdx =>
       match fs.toList.get? scalarIdx with
       | some (name, isVar, elt) =>
         if isVar then [oc.getVarargBaseTy elt]
         else if name ≠ none then [elt]
         else []
       | none => []
     | none => []
   | _ => [])
  ++ (match type with
      | .fn _ res autoClosure => if autoClosure then [res] else []
      | _ => [])
  ++ (if oc.mayHaveSuperclass type then
        match oc.getSuperClassOf type with
        | some superclass => [superclass]
        | none => []
      else [])
  ++ (match type with
      | .lval obj implicitQ => if implicitQ then [obj] else []
      | _ => [])

/-- The struct `PotentialBindings` (CSSolver.cpp, lines 644-671): the set
of potential bindings of one type variable, with the three ranking flags. -/
structure PotentialBindings where
  Bindings : List (Ty × Bool)
  FullyBound : Bool
  InvolvesTypeVariables : Bool
  HasLiteralBindings : Bool
deriving DecidableEq

/-- Unsigned 64-bit negation: the value of `-x` for a C++ `size_t x`,
as produced by `-x.Bindings.size()` in `PotentialBindings::operator<`. -/
def usizeNeg (n : Nat) : Nat :=
  (2 ^ 64 - n % 2 ^ 64) % 2 ^ 64

/-- Comparison `a < b` on C++ `bool` (false before true). -/
def boolLT (a b : Bool) : Bool := !a && b

/-- One step of `std::tuple` lexicographic comparison: strictly less on
the heads, or heads equivalent and the tails compare less. -/
def lexStep (a b rest : Bool) : Bool := boolLT a b || (a == b && rest)

/-- Source operator `PotentialBindings::operator<` (CSSolver.cpp, lines
664-670): lexicographic comparison of
`(FullyBound, InvolvesTypeVariables, HasLiteralBindings, -Bindings.size())`
where the last component is an unsigned `size_t` and therefore wraps. -/
def pbLT (x y : PotentialBindings) : Bool :=
  lexStep x.FullyBound y.FullyBound
    (lexStep x.InvolvesTypeVariables y.InvolvesTypeVariables
      (lexStep x.HasLiteralBindings y.HasLiteralBindings
        (decide (usizeNeg x.Bindings.length < usizeNeg y.Bindings.length))))

/-- Modelled from the spec (section 4.6): ranking uses a lexicographic
less-than on the tuple with mathematical negation `-(number of bindings)`,
so that a larger candidate count is better.  This is the ordering the
claim describes; compare with the implemented `pbLT`. -/
def pbLTSpec (x y : PotentialBindings) : Bool :=
  lexStep x.FullyBound y.FullyBound
    (lexStep x.InvolvesTypeVariables y.InvolvesTypeVariables
      (lexStep x.HasLiteralBindings y.HasLiteralBindings
        (decide ((-(x.Bindings.length : Int)) < -(y.Bindings.length : Int)))))

/-- Source logic of the top-level entry of `ConstraintSystem::solve`
(CSSolver.cpp, lines 916-941): after setting up solver state the function
recurses (the accumulated `solutions` list is the parameter here, the
recursive return value being discarded by the source), then if more than
one solution was accumulated it asks `findBestSolution` (minimize=false)
for the unique best index, keeps only that solution when one exists, and
finally returns failure iff the number of remaining solutions is not one. -/
def solveTopLevel (solutions : List Nat)
    (findBestSolution : (l : List Nat) → Option (Fin l.length)) :
    List Nat × Bool :=
  let solutions :=
    if 1 < solutions.length then
      match findBestSolution solutions with
      | some best => [solutions.get best]
      | none => solutions
    else solutions
  (solutions, decide (solutions.length ≠ 1))

/-- Result of the per-constraint simplifier `simplifyConstraint`
(an external collaborator): `ConstraintSystem::SolutionKind`. -/
inductive SolKind where
  | error
  | solved
  | unsolved
deriving DecidableEq

/-- The solver state touched by the worklist (graph) mode of
`ConstraintSystem::simplify` (CSSolver.cpp, lines 407-498): the active
constraint list, the constraint-graph membership, the solver state's
retired-constraints list, the local set of constraints retired in this
pass (an `llvm::SetVector`), the constraints marked inactive during the
pass, and the failed-constraint flag.  The worklist itself is passed
separately as the recursion argument. -/
structure GraphSimpState where
  constraints : List Nat
  graph : List Nat
  solverRetired : List Nat
  localRetired : List Nat
  inactive : List Nat
  failedConstraint : Option Nat
deriving DecidableEq

/-- The transfer loop at the end of the worklist mode of `simplify`
(CSSolver.cpp, lines 475-496): walk the active list; each constraint in
the local retired set is spliced to the front of the solver state's
retired list in turn (hence the reversal), or simply erased when there is
no solver state. -/
def transferRetired (hasSolverState : Bool) (st : GraphSimpState) :
    GraphSimpState :=
  let moved := st.constraints.filter (fun c => st.localRetired.contains c)
  { st with
    constraints := st.constraints.filter (fun c => !st.localRetired.contains c),
    solverRetired :=
      if hasSolverState then moved.reverse ++ st.solverRetired
      else st.solverRetired }

/-- Processing of a single worklist constraint in the graph mode of
`ConstraintSystem::simplify` (CSSolver.cpp, lines 416-445): invoke the
external per-constraint simplifier `simpC`; on `error` record the first
failed constraint, on `solved` insert the constraint into the local
retired set and remove it from the constraint graph; finally mark the
constraint inactive. -/
def processConstraint (simpC : Nat → SolKind) (st : GraphSimpState)
    (c : Nat) : GraphSimpState :=
  let st :=
    match simpC c with
    | .error =>
      if st.failedConstraint = none then
        { st with failedConstraint := some c }
      else st
    | .solved =>
      { st with
        localRetired :=
          if st.localRetired.contains c then st.localRetired
          else st.localRetired ++ [c],
        graph := st.graph.erase c }
    | .unsolved => st
  { st with inactive := st.inactive ++ [c] }

/-- The failure path of the worklist mode (CSSolver.cpp, lines 448-467):
drain the remaining worklist marking each constraint inactive, then
splice the whole active list into the retired list (or clear it when
there is no solver state). -/
def failRetire (hasSolverState : Bool) (worklist : List Nat)
    (st : GraphSimpState) : GraphSimpState :=
  let st := { st with inactive := st.inactive ++ worklist }
  if hasSolverState then
    { st with
      solverRetired := st.constraints ++ st.solverRetired,
      constraints := [] }
  else { st with constraints := [] }

/-- The worklist (graph) mode of `ConstraintSystem::simplify`
(CSSolver.cpp, lines 407-498).  `worse` models `worseThanBestSolution()`
as a function of the sequence of constraints processed so far (the score
is mutated only by the external simplifier, so the comparison is a
function of that history); `processed` is the accumulator of processed
constraints.  Each worklist constraint is processed in turn; after each,
the loop returns failure if a constraint failed (via `failRetire`) or if
the score became worse than the best solution (with no transfer at all);
when the worklist is exhausted, the locally retired constraints are
transferred out of the active list and the loop succeeds. -/
def simplifyGraphMode (simpC : Nat → SolKind) (worse : List Nat → Bool)
    (hasSolverState : Bool) :
    List Nat → List Nat → GraphSimpState → GraphSimpState × Bool
  | [], _, st => (transferRetired hasSolverState st, false)
  | c :: worklist, processed, st =>
    let st := processConstraint simpC st c
    if st.failedConstraint ≠ none then
      (failRetire hasSolverState worklist st, true)
    else if worse (processed ++ [c]) then
      (st, true)
    else
      simplifyGraphMode simpC worse hasSolverState worklist (processed ++ [c]) st

/-- The constraint kinds consumed by the solver core.  The several
type-property kinds of the source (which the core never distinguishes)
are collapsed into the single representative `typeProperty`. -/
inductive ConstraintKind where
  | bind
  | equal
  | trivialSubtype
  | subtype
  | conversion
  | applicableFunction
  | conformsTo
  | selfObjectOfProtocol
  | typeProperty
  | valueMember
  | typeMember
  | conjunction
  | disjunction
deriving DecidableEq

/-- The classification `Constraint::getClassification` groups kinds by.
The relational branch of `collectConstraintsForTypeVariables` receives
the kinds up to `selfObjectOfProtocol`. -/
inductive ConstraintClassification where
  | relational
  | typeProperty
  | member
  | conjunction
  | disjunction
deriving DecidableEq

/-- Classification of each constraint kind, as consumed by the `switch` in
`collectConstraintsForTypeVariables` (declared in the solver's header,
modelled here at the granularity that function relies on). -/
def ConstraintKind.classification : ConstraintKind → ConstraintClassification
  | .bind | .equal | .trivialSubtype | .subtype | .conversion
  | .applicableFunction | .conformsTo | .selfObjectOfProtocol =>
    ConstraintClassification.relational
  | .typeProperty => ConstraintClassification.typeProperty
  | .valueMember | .typeMember => ConstraintClassification.member
  | .conjunction => ConstraintClassification.conjunction
  | .disjunction => ConstraintClassification.disjunction

/-- A constraint nested two levels deep (inside a conjunction inside a
disjunction); `collectConstraintsForTypeVariables` only reads its first
and (optional) second type. -/
structure InnerConstraint where
  first : Ty
  second : Option Ty
deriving DecidableEq

/-- A constraint nested directly inside a disjunction.  The classifier
reads its kind (to recognize an inner conjunction), its first/second
types, and its own nested constraints. -/
structure NestedConstraint where
  kind : ConstraintKind
  first : Ty
  second : Option Ty
  children : List InnerConstraint
deriving DecidableEq

/-- A top-level constraint, flattened to the fields the solver core
reads: kind, first and second type, protocol (for conformance
constraints; the classifier never reads it, `getPotentialBindings`
does), and the nested constraints of a disjunction.  The second type is
total here; kinds that carry no second type simply never have it read,
mirroring the null `getSecondType()` of the source. -/
structure Constraint where
  kind : ConstraintKind
  first : Ty
  second : Ty
  protocolId : Nat
  nested : List NestedConstraint
deriving DecidableEq

/-- The per-type-variable summary `TypeVariableConstraints` built by
`collectConstraintsForTypeVariables` (declared in the solver's header;
its fields are fully determined by their uses in CSSolver.cpp). -/
structure TypeVariableConstraints where
  TypeVar : Nat
  ConformsToConstraints : List Constraint
  Above : List (Constraint × Ty)
  Below : List (Constraint × Ty)
  FullyBound : Bool
  HasNonConcreteConstraints : Bool
deriving DecidableEq

/-- A fresh, empty summary for a type variable, as constructed by the
`getTVC` helper when it first meets a representative. -/
def newTVC (v : Nat) : TypeVariableConstraints :=
  ⟨v, [], [], [], false, false⟩

/-- The output state of the classifier: the summaries (in order of first
creation, mirroring the source's index map over a vector), the list of
"referenced" type variables, and the collected disjunctions. -/
structure ClassifierState where
  typeVarConstraints : List TypeVariableConstraints
  referenced : List Nat
  disjunctions : List Constraint
deriving DecidableEq

/-- The `getTVC` helper of `collectConstraintsForTypeVariables`
(CSSolver.cpp, lines 262-270): map the variable to its representative,
find its summary (creating one at the end of the vector if absent) and
apply an update to it. -/
def updateTVC (rep : Nat → Nat) (l : List TypeVariableConstraints) (tv : Nat)
    (f : TypeVariableConstraints → TypeVariableConstraints) :
    List TypeVariableConstraints :=
  let tv := rep tv
  if l.any (fun t => t.TypeVar == tv) then
    l.map (fun t => if t.TypeVar == tv then f t else t)
  else
    l ++ [f (newTVC tv)]

/-- Source function `typeVariablesIntersect` (CSSolver.cpp, lines
231-252): whether the representative sets of two lists of type variables
intersect. -/
def typeVariablesIntersect (rep : Nat → Nat) (tvs1 tvs2 : List Nat) : Bool :=
  if tvs1.isEmpty || tvs2.isEmpty then false
  else tvs2.any (fun v2 => tvs1.any (fun v1 => rep v1 == rep v2))

/-- Marking of one variable as fully bound through `getTVC` (used for
the left-hand side of an applicable-function constraint and for member
types disjoint from their base, CSSolver.cpp lines 299-300 and
331-332). -/
def setFullyBound (rep : Nat → Nat) (s : ClassifierState) (v : Nat) :
    ClassifierState :=
  { s with
    typeVarConstraints := updateTVC rep s.typeVarConstraints v
      (fun t => { t with FullyBound := true }) }

/-- Referencing of the type variables of one constraint nested inside a
disjunction (CSSolver.cpp, lines 354-360): the variables of the
simplified first type and, when present, of the simplified second
type. -/
def addInnerRefs (simplify : Ty → Ty) (s : ClassifierState)
    (inner : InnerConstraint) : ClassifierState :=
  let s :=
    { s with
      referenced := s.referenced ++ (simplify inner.first).typeVariables }
  match inner.second with
  | some snd =>
    { s with referenced := s.referenced ++ (simplify snd).typeVariables }
  | none => s

/-- Referencing for one direct member of a disjunction (CSSolver.cpp,
lines 347-361): a nested conjunction contributes each of its children,
any other constraint contributes itself. -/
def addDisjunctionRefs (simplify : Ty → Ty) (s : ClassifierState)
    (dis : NestedConstraint) : ClassifierState :=
  let inners : List InnerConstraint :=
    if dis.kind = .conjunction then dis.children
    else [⟨dis.first, dis.second⟩]
  inners.foldl (addInnerRefs simplify) s

/-- Processing of one top-level constraint by
`collectConstraintsForTypeVariables` (CSSolver.cpp, lines 275-390).
`simplify` is `ConstraintSystem::simplifyType` and `rep` is
`getRepresentative`.  Top-level conjunctions are unreachable in the
source (`llvm_unreachable`) and are modelled as a no-op. -/
def classifyOne (simplify : Ty → Ty) (rep : Nat → Nat) (st : ClassifierState)
    (c : Constraint) : ClassifierState :=
  match c.kind.classification with
  | .relational =>
    let first := simplify c.first
    if c.kind = .conformsTo ∨ c.kind = .selfObjectOfProtocol then
      match first with
      | .tvar v =>
        { st with
          typeVarConstraints := updateTVC rep st.typeVarConstraints v
            (fun t =>
              { t with ConformsToConstraints := t.ConformsToConstraints ++ [c] }) }
      | _ => st
    else if c.kind = .applicableFunction then
      let st := first.typeVariables.foldl (setFullyBound rep) st
      { st with referenced := st.referenced ++ (simplify c.second).typeVariables }
    else
      let second := simplify c.second
      let firstTV : Option Nat :=
        match first with | .tvar v => some v | _ => none
      let secondTV : Option Nat :=
        match second with | .tvar v => some v | _ => none
      let st :=
        match firstTV with
        | some v =>
          { st with
            typeVarConstraints := updateTVC rep st.typeVarConstraints v
              (fun t => { t with Above := t.Above ++ [(c, second)] }) }
        | none => { st with referenced := st.referenced ++ first.typeVariables }
      let st :=
        match secondTV with
        | some v =>
          { st with
            typeVarConstraints := updateTVC rep st.typeVarConstraints v
              (fun t => { t with Below := t.Below ++ [(c, first)] }) }
        | none => { st with referenced := st.referenced ++ second.typeVariables }
      match firstTV, secondTV with
      | some v1, some v2 => { st with referenced := st.referenced ++ [v1, v2] }
      | _, _ => st
  | .typeProperty =>
    let first := simplify c.first
    if first.isTypeVariable then st
    else { st with referenced := st.referenced ++ first.typeVariables }
  | .member =>
    let first := simplify c.first
    let baseTypeVars := first.typeVariables
    let memberTypeVars := (simplify c.second).typeVariables
    if typeVariablesIntersect rep baseTypeVars memberTypeVars then
      { st with referenced := st.referenced ++ memberTypeVars }
    else
      memberTypeVars.foldl (setFullyBound rep) st
  | .conjunction => st
  | .disjunction =>
    let st := { st with disjunctions := st.disjunctions ++ [c] }
    c.nested.foldl (addDisjunctionRefs simplify) st

/-- One iteration of the final marking loop of
`collectConstraintsForTypeVariables` (CSSolver.cpp, lines 394-404): when
the representative of the referenced variable has a summary, set its
`HasNonConcreteConstraints` flag. -/
def markOne (rep : Nat → Nat) (s : ClassifierState) (tv : Nat) :
    ClassifierState :=
  let tv := rep tv
  if s.typeVarConstraints.any (fun t => t.TypeVar == tv) then
    { s with
      typeVarConstraints := s.typeVarConstraints.map
        (fun t =>
          if t.TypeVar == tv then { t with HasNonConcreteConstraints := true }
          else t) }
  else s

/-- The final marking loop of `collectConstraintsForTypeVariables`
(CSSolver.cpp, lines 392-404): every referenced type variable whose
representative has a summary has `HasNonConcreteConstraints` set.  The
`SeenVars` set of the source only skips duplicate list entries; since
the marking is idempotent it does not change the result and is omitted. -/
def markReferenced (rep : Nat → Nat) (st : ClassifierState) : ClassifierState :=
  st.referenced.foldl (markOne rep) st

/-- Source function `ConstraintSystem::collectConstraintsForTypeVariables`
(CSSolver.cpp, lines 254-405): walk all active constraints building the
per-variable summaries, then mark every referenced variable that has a
summary as having non-concrete constraints. -/
def collectConstraintsForTypeVariables (simplify : Ty → Ty) (rep : Nat → Nat)
    (constraints : List Constraint) : ClassifierState :=
  markReferenced rep (constraints.foldl (classifyOne simplify rep) ⟨[], [], []⟩)

/-- The external collaborators consumed by the literal-default part of
`getPotentialBindings`: `TypeChecker::getDefaultType` (per protocol, the
declaration context being fixed), `Type::isUnspecializedGeneric` and
`Type::getAnyNominal`. -/
structure LiteralOracles where
  getDefaultType : Nat → Option Ty
  isUnspecializedGeneric : Ty → Bool
  getAnyNominal : Ty → Option Nat

/-- One iteration of the lower-bound loop of `getPotentialBindings`
(CSSolver.cpp, lines 687-705): accept the candidate through
`checkTypeOfBinding` (a rejection marks `InvolvesTypeVariables`, as does
an accepted type containing type variables) and record it unless its
canonical form was already accepted. -/
def pbBelowStep (simplify canon : Ty → Ty) (typeVar : Nat)
    (acc : PotentialBindings × List Ty) (arg : Constraint × Ty) :
    PotentialBindings × List Ty :=
  let (result, exactTypes) := acc
  match checkTypeOfBinding simplify typeVar (some arg.2) with
  | none => ({ result with InvolvesTypeVariables := true }, exactTypes)
  | some type =>
    let result :=
      if type.hasTypeVariable then
        { result with InvolvesTypeVariables := true }
      else result
    if exactTypes.contains (canon type) then (result, exactTypes)
    else
      ({ result with Bindings := result.Bindings ++ [(type, false)] },
       exactTypes ++ [canon type])

/-- One iteration of the upper-bound loop of `getPotentialBindings`
(CSSolver.cpp, lines 707-736): like the lower-bound step, but a
conversion or subtype upper bound that is a single-element non-vararg
tuple is unwrapped to its element type before deduplication. -/
def pbAboveStep (simplify canon : Ty → Ty) (typeVar : Nat)
    (acc : PotentialBindings × List Ty) (arg : Constraint × Ty) :
    PotentialBindings × List Ty :=
  let (result, exactTypes) := acc
  match checkTypeOfBinding simplify typeVar (some arg.2) with
  | none => ({ result with InvolvesTypeVariables := true }, exactTypes)
  | some type0 =>
    let result :=
      if type0.hasTypeVariable then
        { result with InvolvesTypeVariables := true }
      else result
    let type :=
      if arg.1.kind = .conversion ∨ arg.1.kind = .subtype ∨
          arg.1.kind = .trivialSubtype then
        match type0 with
        | .tuple (.cons _ false t .nil) => t
        | _ => type0
      else type0
    if exactTypes.contains (canon type) then (result, exactTypes)
    else
      ({ result with Bindings := result.Bindings ++ [(type, false)] },
       exactTypes ++ [canon type])

/-- One iteration of the conformance loop of `getPotentialBindings`
(CSSolver.cpp, lines 738-772): add the default literal type of the
protocol, deduplicating non-generic defaults by canonical form and
generic defaults by nominal head. -/
def pbConformsStep (canon : Ty → Ty) (lo : LiteralOracles)
    (acc : PotentialBindings × List Ty) (constraint : Constraint) :
    PotentialBindings × List Ty :=
  let (result, exactTypes) := acc
  match lo.getDefaultType constraint.protocolId with
  | none => (result, exactTypes)
  | some type =>
    if !lo.isUnspecializedGeneric type then
      if exactTypes.contains (canon type) then (result, exactTypes)
      else
        ({ result with
            HasLiteralBindings := true,
            Bindings := result.Bindings ++ [(type, true)] },
         exactTypes ++ [canon type])
    else
      let nominal := lo.getAnyNominal type
      let matched := exactTypes.any
        (fun exactType =>
          match lo.getAnyNominal exactType with
          | some exactNominal => nominal == some exactNominal
          | none => false)
      if matched then (result, exactTypes)
      else
        ({ result with
            HasLiteralBindings := true,
            Bindings := result.Bindings ++ [(type, true)] },
         exactTypes ++ [canon type])

/-- Source function `getPotentialBindings` (CSSolver.cpp, lines 677-778):
build the candidate binding set of one type variable from its summary.
The result starts from the summary's `FullyBound` and
`HasNonConcreteConstraints` flags; lower bounds are processed first, then
upper bounds, then the default literal types of the protocols the
variable must conform to.  `canon` is `Type::getCanonicalType`; the
second component threaded through the folds is the `exactTypes` set of
canonical types already accepted. -/
def getPotentialBindings (simplify canon : Ty → Ty) (lo : LiteralOracles)
    (tvc : TypeVariableConstraints) : PotentialBindings :=
  (tvc.ConformsToConstraints.foldl (pbConformsStep canon lo)
    (tvc.Above.foldl (pbAboveStep simplify canon tvc.TypeVar)
      (tvc.Below.foldl (pbBelowStep simplify canon tvc.TypeVar)
        (⟨[], tvc.FullyBound, tvc.HasNonConcreteConstraints, false⟩,
         [])))).1

/-- Insertion into a set of canonical types modelled as a list:
the counterpart of `SmallPtrSet::insert` where only membership is ever
consumed. -/
def insertCanonical (explored : List Ty) (t : Ty) : List Ty :=
  if explored.contains t then explored else explored ++ [t]

/-- The note-visited step at the start of the first round transition of
`tryTypeVariableBindings` (CSSolver.cpp, lines 857-859): record the
canonical form of every binding of the first round as explored. -/
def noteVisited (canon : Ty → Ty) (bindings : List (Ty × Bool))
    (explored : List Ty) : List Ty :=
  bindings.foldl (fun e b => insertCanonical e (canon b.1)) explored

/-- The alternative-literal phase of the first round transition of
`tryTypeVariableBindings` (CSSolver.cpp, lines 861-877): each alternative
literal type not yet explored is added (flagged for opening) and marked
explored.  `altLiterals` is the concatenation, over the conformance
constraints whose protocol has a default type, of
`getAlternativeLiteralTypes` — an external collaborator. -/
def literalPhase (canon : Ty → Ty) (altLiterals : List Ty)
    (explored : List Ty) : List (Ty × Bool) × List Ty :=
  altLiterals.foldl
    (fun acc t =>
      if acc.2.contains (canon t) then acc
      else (acc.1 ++ [(t, true)], acc.2 ++ [canon t]))
    ([], explored)

/-- One accepted-supertype iteration of the supertype enumeration of
`tryTypeVariableBindings` (CSSolver.cpp, lines 892-901): skip a
supertype rejected by `checkTypeOfBinding`; otherwise record the
accepted (simplified) supertype unless its canonical form was already
explored. -/
def superInner (simplify canon : Ty → Ty) (typeVar : Nat)
    (acc : List (Ty × Bool) × List Ty) (s : Ty) :
    List (Ty × Bool) × List Ty :=
  match checkTypeOfBinding simplify typeVar (some s) with
  | none => acc
  | some simpleSuper =>
    if acc.2.contains (canon simpleSuper) then acc
    else (acc.1 ++ [(simpleSuper, false)], acc.2 ++ [canon simpleSuper])

/-- The supertype enumeration step of `tryTypeVariableBindings`
(CSSolver.cpp, lines 888-902): for every binding just tried, every direct
supertype accepted by `checkTypeOfBinding` and not yet explored becomes a
new candidate (not flagged for opening) and is marked explored.
`supers` is `enumerateDirectSupertypes` with its oracles fixed. -/
def superStep (simplify canon : Ty → Ty) (supers : Ty → List Ty)
    (typeVar : Nat) (tried : List (Ty × Bool)) (explored : List Ty) :
    List (Ty × Bool) × List Ty :=
  tried.foldl
    (fun acc binding =>
      (supers binding.1).foldl (superInner simplify canon typeVar) acc)
    ([], explored)

/-- The candidate set and explored set of one round of
`tryTypeVariableBindings`. -/
structure TvbState where
  bindings : List (Ty × Bool)
  explored : List Ty
deriving DecidableEq

/-- The transition out of the first round of `tryTypeVariableBindings`
(CSSolver.cpp, lines 855-886 then 888-911): note the first round's
bindings as visited, try the alternative literal types, and only when
that adds nothing fall through to the supertype enumeration; `none`
means the loop terminates (no new bindings). -/
def tvbStepFirst (simplify canon : Ty → Ty) (supers : Ty → List Ty)
    (typeVar : Nat) (altLiterals : List Ty) (st : TvbState) :
    Option TvbState :=
  let explored := noteVisited canon st.bindings st.explored
  let litRes := literalPhase canon altLiterals explored
  if litRes.1 ≠ [] then some ⟨litRes.1, litRes.2⟩
  else
    let supRes := superStep simplify canon supers typeVar st.bindings litRes.2
    if supRes.1 = [] then none else some ⟨supRes.1, supRes.2⟩

/-- The transition out of every later round of `tryTypeVariableBindings`
(CSSolver.cpp, lines 888-911): only the supertype enumeration runs. -/
def tvbStepLater (simplify canon : Ty → Ty) (supers : Ty → List Ty)
    (typeVar : Nat) (st : TvbState) : Option TvbState :=
  let supRes := superStep simplify canon supers typeVar st.bindings st.explored
  if supRes.1 = [] then none else some ⟨supRes.1, supRes.2⟩

/-- The successive rounds of candidate bindings explored by
`tryTypeVariableBindings` (CSSolver.cpp, lines 790-914) along a branch on
which no binding ever produces a solution (rounds only continue while
`anySolved` is false; a solution stops the loop).  `tvbRounds ... k` is
the state at the start of round `k + 1`, or `none` once the loop has
terminated for lack of new bindings. -/
def tvbRounds (simplify canon : Ty → Ty) (supers : Ty → List Ty)
    (typeVar : Nat) (altLiterals : List Ty) (initial : List (Ty × Bool)) :
    Nat → Option TvbState
  | 0 => some ⟨initial, []⟩
  | k + 1 =>
    match tvbRounds simplify canon supers typeVar altLiterals initial k with
    | none => none
    | some st =>
      if k = 0 then tvbStepFirst simplify canon supers typeVar altLiterals st
      else tvbStepLater simplify canon supers typeVar st

/-- The observable solver state manipulated by
`ConstraintSystem::SolverScope` (CSSolver.cpp, lines 588-641): the
resolved-overloads stack (a singly linked list whose head pointer is
modelled by the list itself), the type-variable list, the fixed-type
bindings of the substitution store together with the saved-bindings
journal, the active constraint list, the solver state's retired
constraints (new retirements are spliced to the front), the
constraint-restriction table, the currently accumulating
generated-constraints set (the set pointed to by
`solverState->generatedConstraints`), the current score and the
failed-constraint flag.  Overloads, constraints, restrictions and scores
are opaque to the scope mechanism and are modelled by identifiers. -/
structure SolverCS where
  resolvedOverloadSets : List Nat
  typeVariables : List Nat
  bindings : Nat → Option Nat
  savedBindings : List (Nat × Option Nat)
  constraints : List Nat
  retiredConstraints : List Nat
  constraintRestrictions : List Nat
  generatedConstraints : List Nat
  currentScore : Nat
  failedConstraint : Option Nat

/-- The frame captured by the `SolverScope` constructor (CSSolver.cpp,
lines 588-606): the overloads head, the prefix lengths of the
type-variable list, saved-bindings journal, retired list (the iterator
`firstRetired` into a front-spliced list is its entry length) and
restriction table, the previous generated-constraints pointer and the
previous score. -/
structure SolverScope where
  resolvedOverloadSets : List Nat
  numTypeVariables : Nat
  numSavedBindings : Nat
  numRetired : Nat
  numConstraintRestrictions : Nat
  oldGeneratedConstraints : List Nat
  PreviousScore : Nat

/-- The `SolverScope` constructor: capture the frame and swap in the
scope's own (empty) generated-constraints set. -/
def scopeEnter (cs : SolverCS) : SolverScope × SolverCS :=
  (⟨cs.resolvedOverloadSets, cs.typeVariables.length, cs.savedBindings.length,
    cs.retiredConstraints.length, cs.constraintRestrictions.length,
    cs.generatedConstraints, cs.currentScore⟩,
   { cs with generatedConstraints := [] })

/-- Pointwise update of the fixed-type binding map. -/
def updateBinding (b : Nat → Option Nat) (v : Nat) (t : Option Nat) :
    Nat → Option Nat :=
  fun w => if w = v then t else b w

/-- The operations a solver scope's body can perform on the observable
state, at the granularity the scope mechanism sees them: push a resolved
overload, create a type variable, change a variable's fixed binding
(journaling the previous value, as `assignFixedType` does through
`SavedTypeVariableBinding`), retire an active constraint, generate a
fresh constraint (recorded in the current generated-constraints set),
record a conversion restriction, increase the score, and record a failed
constraint. -/
inductive SolverOp where
  | pushOverload : Nat → SolverOp
  | addTypeVariable : Nat → SolverOp
  | assignFixed : Nat → Option Nat → SolverOp
  | retire : Nat → SolverOp
  | generate : Nat → SolverOp
  | pushRestriction : Nat → SolverOp
  | increaseScore : Nat → SolverOp
  | recordFailed : Nat → SolverOp

/-- Effect of one in-scope operation on the observable state. -/
def applyOp (cs : SolverCS) : SolverOp → SolverCS
  | .pushOverload o =>
    { cs with resolvedOverloadSets := o :: cs.resolvedOverloadSets }
  | .addTypeVariable v =>
    { cs with typeVariables := cs.typeVariables ++ [v] }
  | .assignFixed v t =>
    { cs with
      savedBindings := cs.savedBindings ++ [(v, cs.bindings v)],
      bindings := updateBinding cs.bindings v t }
  | .retire c =>
    { cs with
      constraints := cs.constraints.erase c,
      retiredConstraints := c :: cs.retiredConstraints }
  | .generate c =>
    { cs with
      constraints := cs.constraints ++ [c],
      generatedConstraints := c :: cs.generatedConstraints }
  | .pushRestriction r =>
    { cs with constraintRestrictions := cs.constraintRestrictions ++ [r] }
  | .increaseScore n =>
    { cs with currentScore := cs.currentScore + n }
  | .recordFailed c =>
    { cs with
      failedConstraint :=
        if cs.failedConstraint = none then some c else cs.failedConstraint }

/-- Side conditions under which an operation mirrors the source: only an
active constraint can be retired, and a generated constraint is a fresh
object (its address is distinct from every live constraint's). -/
def validOp (cs : SolverCS) : SolverOp → Bool
  | .retire c => cs.constraints.contains c
  | .generate c =>
    !cs.constraints.contains c && !cs.retiredConstraints.contains c
  | _ => true

/-- Apply a sequence of in-scope operations. -/
def applyOps (cs : SolverCS) (ops : List SolverOp) : SolverCS :=
  ops.foldl applyOp cs

/-- Validity of a sequence of in-scope operations, each in the state it
runs in. -/
def validOps : SolverCS → List SolverOp → Bool
  | _, [] => true
  | cs, op :: ops => validOp cs op && validOps (applyOp cs op) ops

/-- Source function `ConstraintSystem::restoreTypeVariableBindings`
(CSSolver.cpp, lines 172-180): re-apply the last `numBindings` journal
entries in reverse order, then truncate them from the journal. -/
def restoreTypeVariableBindings (cs : SolverCS) (numBindings : Nat) :
    SolverCS :=
  { cs with
    bindings :=
      (cs.savedBindings.reverse.take numBindings).foldl
        (fun b p => updateBinding b p.1 p.2) cs.bindings,
    savedBindings :=
      cs.savedBindings.take (cs.savedBindings.length - numBindings) }

/-- The `SolverScope` destructor (CSSolver.cpp, lines 608-641), step by
step in its order: restore the overloads head; truncate the
type-variable list; restore the journaled bindings; splice the
constraints retired inside the scope back to the end of the active list;
erase the constraints generated inside the scope from the active list;
truncate the restriction table; restore the generated-constraints
pointer; restore the score; clear the failed-constraint flag.  (The
constraint graph, when present, is rewound by its own parallel `CGScope`
journal, outside this model.) -/
def scopeExit (scope : SolverScope) (cs : SolverCS) : SolverCS :=
  let cs := { cs with resolvedOverloadSets := scope.resolvedOverloadSets }
  let cs := { cs with typeVariables := cs.typeVariables.take scope.numTypeVariables }
  let cs := restoreTypeVariableBindings cs
    (cs.savedBindings.length - scope.numSavedBindings)
  let movedBack :=
    cs.retiredConstraints.take (cs.retiredConstraints.length - scope.numRetired)
  let cs :=
    { cs with
      constraints := cs.constraints ++ movedBack,
      retiredConstraints :=
        cs.retiredConstraints.drop
          (cs.retiredConstraints.length - scope.numRetired) }
  let cs :=
    { cs with
      constraints :=
        cs.constraints.filter (fun c => !cs.generatedConstraints.contains c) }
  let cs :=
    { cs with
      constraintRestrictions :=
        cs.constraintRestrictions.take scope.numConstraintRestrictions }
  let cs := { cs with generatedConstraints := scope.oldGeneratedConstraints }
  let cs := { cs with currentScore := scope.PreviousScore }
  { cs with failedConstraint := none }

/-- Concatenation of the candidate sets of rounds `0` to `k` of
`tryTypeVariableBindings`: every binding tried in the first `k + 1`
rounds (in round order). -/
def tvbTried (simplify canon : Ty → Ty) (supers : Ty → List Ty)
    (typeVar : Nat) (altLiterals : List Ty) (initial : List (Ty × Bool)) :
    Nat → List (Ty × Bool)
  | 0 => initial
  | k + 1 =>
    tvbTried simplify canon supers typeVar altLiterals initial k ++
      (match tvbRounds simplify canon supers typeVar altLiterals initial (k + 1) with
       | some st => st.bindings
       | none => [])

/-- Proof-side invariant relating the in-scope state `t` to the state
`s` the scope was opened on: the type-variable list, saved-bindings
journal and restriction table are append-only extensions; replaying the
journal suffix in reverse restores the bindings; the retired list has
grown only at the front, and the active constraints plus the newly
retired ones are a permutation of the pre-scope constraints plus the
scope's generated constraints, which are all fresh. -/
def ScopeInv (s t : SolverCS) : Prop :=
  (∃ e, t.typeVariables = s.typeVariables ++ e) ∧
    (∃ J, t.savedBindings = s.savedBindings ++ J ∧
      J.reverse.foldl (fun b p => updateBinding b p.1 p.2) t.bindings
        = s.bindings) ∧
    (∃ R, t.retiredConstraints = R ++ s.retiredConstraints ∧
      List.Perm (t.constraints ++ R)
        (s.constraints ++ t.generatedConstraints)) ∧
    (∃ r, t.constraintRestrictions = s.constraintRestrictions ++ r) ∧
    (∀ c ∈ t.generatedConstraints, c ∉ s.constraints)

/-! ## Theorems -/

/-- Claim C4: for every type variable `v` and candidate type `t`,
`checkTypeOfBinding` returns `none` exactly when the simplified `t`
references `v` among its type variables, or when the rvalue of the
simplified `t` is itself a bare type variable; in every other case it
returns the simplified `t`. -/
theorem checkTypeOfBinding_characterization (simplify : Ty → Ty) (v : Nat)
    (t : Ty) :
    checkTypeOfBinding simplify v (some t) =
      if v ∈ (simplify t).typeVariables ∨
          (simplify t).getRValueType.isTypeVariable = true then
        none
      else some (simplify t) := by
  by_cases hmem : v ∈ (simplify t).typeVariables
  · have hc : (simplify t).typeVariables.count v ≠ 0 := by
      simpa [List.count_eq_zero] using hmem
    simp [checkTypeOfBinding, hc, hmem]
  · have hc : (simplify t).typeVariables.count v = 0 :=
      List.count_eq_zero.mpr hmem
    by_cases htv : (simplify t).getRValueType.isTypeVariable = true
    · simp [checkTypeOfBinding, hc, hmem, htv]
    · simp [checkTypeOfBinding, hc, hmem, htv]

/-- Claim C8: `enumerateDirectSupertypes` yields exactly the four groups
of direct supertypes described by the specification, modelled by
`enumerateDirectSupertypesSpec`: the scalar-init element's base type for
a scalar-initializable tuple, the result type of an auto-closure
function type, the superclass when the type may have one and it exists,
and the object type of an implicitly qualified l-value. -/
theorem enumerateDirectSupertypes_eq_spec (oc : SupertypeOracles) (t : Ty) :
    enumerateDirectSupertypes oc t = enumerateDirectSupertypesSpec oc t := by
  cases t <;> simp [enumerateDirectSupertypes, enumerateDirectSupertypesSpec]

/-- Claim C5, counterexample: the implemented ordering compares the
negated candidate count as an unsigned `size_t`, so an empty binding set
(negated count `0`) ranks strictly better than a nonempty one (negated
count `2 ^ 64 - n`), while the claimed mathematical tuple order ranks it
strictly worse.  At these two concrete inputs the code's order and the
claimed order disagree. -/
theorem pbLT_empty_bindings_counterexample :
    pbLT ⟨[], false, false, false⟩ ⟨[(Ty.base 0, false)], false, false, false⟩
        = true ∧
      pbLTSpec ⟨[], false, false, false⟩
        ⟨[(Ty.base 0, false)], false, false, false⟩ = false := by
  constructor <;> decide

/-- Claim C5, amended: for potential-binding sets with nonempty binding
lists (the only sets `solveSimplified` ever compares, since empty
candidate sets are skipped before the comparison) of physically
representable length, the implemented order coincides with the claimed
lexicographic order on
`(FullyBound, InvolvesTypeVariables, HasLiteralBindings, -count)`. -/
theorem pbLT_eq_spec_of_nonempty (x y : PotentialBindings)
    (hx : x.Bindings ≠ []) (hy : y.Bindings ≠ [])
    (hx64 : x.Bindings.length < 2 ^ 64) (hy64 : y.Bindings.length < 2 ^ 64) :
    pbLT x y = pbLTSpec x y := by
  have hxlen : 0 < x.Bindings.length := List.length_pos.mpr hx
  have hylen : 0 < y.Bindings.length := List.length_pos.mpr hy
  have key : (usizeNeg x.Bindings.length < usizeNeg y.Bindings.length) ↔
      ((-(x.Bindings.length : Int)) < -(y.Bindings.length : Int)) := by
    unfold usizeNeg
    rw [Nat.mod_eq_of_lt hx64, Nat.mod_eq_of_lt hy64,
      Nat.mod_eq_of_lt (by omega), Nat.mod_eq_of_lt (by omega)]
    omega
  unfold pbLT pbLTSpec
  rw [decide_eq_decide.mpr key]

/-- Witness for `pbLT_eq_spec_of_nonempty` at two concrete nonempty
binding sets. -/
theorem pbLT_eq_spec_of_nonempty_witness :
    (⟨[(Ty.base 0, false)], false, false, false⟩ : PotentialBindings).Bindings
        ≠ [] ∧
      (⟨[(Ty.base 1, false), (Ty.base 2, false)], false, false,
          false⟩ : PotentialBindings).Bindings ≠ [] ∧
      pbLT ⟨[(Ty.base 0, false)], false, false, false⟩
          ⟨[(Ty.base 1, false), (Ty.base 2, false)], false, false, false⟩ =
        pbLTSpec ⟨[(Ty.base 0, false)], false, false, false⟩
          ⟨[(Ty.base 1, false), (Ty.base 2, false)], false, false, false⟩ :=
  ⟨by decide, by decide,
    pbLT_eq_spec_of_nonempty _ _ (by decide) (by decide) (by decide)
      (by decide)⟩

/-- Claim C2: the top-level call of `solve` returns success (`false`)
iff exactly one solution remains after the best-solution filtering; in
particular zero accumulated solutions yield failure, more than one
solution with a unique best keeps exactly that solution and succeeds,
and more than one solution with no unique best yields failure. -/
theorem solveTopLevel_success_iff (solutions : List Nat)
    (findBestSolution : (l : List Nat) → Option (Fin l.length)) :
    ((solveTopLevel solutions findBestSolution).2 = false ↔
        (solveTopLevel solutions findBestSolution).1.length = 1) ∧
      (solutions = [] → (solveTopLevel solutions findBestSolution).2 = true) ∧
      (∀ b, 1 < solutions.length → findBestSolution solutions = some b →
        (solveTopLevel solutions findBestSolution).1 = [solutions.get b] ∧
          (solveTopLevel solutions findBestSolution).2 = false) ∧
      (1 < solutions.length → findBestSolution solutions = none →
        (solveTopLevel solutions findBestSolution).2 = true) := by
  refine ⟨?_, ?_, ?_, ?_⟩
  · unfold solveTopLevel
    split
    · rename_i hlen
      cases hfb : findBestSolution solutions
      · simp [hfb]
      · simp [hfb]
    · simp
  · intro h
    subst h
    simp [solveTopLevel]
  · intro b hlen hfb
    simp [solveTopLevel, hlen, hfb]
  · intro hlen hfb
    simp [solveTopLevel, hlen, hfb]
    omega

/-- The lower-bound step never clears `InvolvesTypeVariables`. -/
theorem pbBelowStep_involves_mono (simplify canon : Ty → Ty) (typeVar : Nat)
    (acc : PotentialBindings × List Ty) (arg : Constraint × Ty)
    (h : acc.1.InvolvesTypeVariables = true) :
    (pbBelowStep simplify canon typeVar acc arg).1.InvolvesTypeVariables
      = true := by
  rcases acc with ⟨result, exactTypes⟩
  unfold pbBelowStep
  cases checkTypeOfBinding simplify typeVar (some arg.2) <;> dsimp only <;>
    split_ifs <;> simp_all

/-- The upper-bound step never clears `InvolvesTypeVariables`. -/
theorem pbAboveStep_involves_mono (simplify canon : Ty → Ty) (typeVar : Nat)
    (acc : PotentialBindings × List Ty) (arg : Constraint × Ty)
    (h : acc.1.InvolvesTypeVariables = true) :
    (pbAboveStep simplify canon typeVar acc arg).1.InvolvesTypeVariables
      = true := by
  rcases acc with ⟨result, exactTypes⟩
  unfold pbAboveStep
  cases checkTypeOfBinding simplify typeVar (some arg.2) <;> dsimp only <;>
    split_ifs <;> simp_all

/-- The conformance step never touches `InvolvesTypeVariables`. -/
theorem pbConformsStep_involves_eq (canon : Ty → Ty) (lo : LiteralOracles)
    (acc : PotentialBindings × List Ty) (c : Constraint) :
    (pbConformsStep canon lo acc c).1.InvolvesTypeVariables
      = acc.1.InvolvesTypeVariables := by
  rcases acc with ⟨result, exactTypes⟩
  unfold pbConformsStep
  cases lo.getDefaultType c.protocolId <;> dsimp only <;>
    split_ifs <;> simp_all

/-- Folding the lower-bound loop preserves `InvolvesTypeVariables`. -/
theorem foldl_pbBelowStep_involves_mono (simplify canon : Ty → Ty)
    (typeVar : Nat) (l : List (Constraint × Ty))
    (acc : PotentialBindings × List Ty)
    (h : acc.1.InvolvesTypeVariables = true) :
    (l.foldl (pbBelowStep simplify canon typeVar) acc).1.InvolvesTypeVariables
      = true := by
  induction l generalizing acc with
  | nil => simpa using h
  | cons a l ih =>
    exact ih _ (pbBelowStep_involves_mono simplify canon typeVar acc a h)

/-- Folding the upper-bound loop preserves `InvolvesTypeVariables`. -/
theorem foldl_pbAboveStep_involves_mono (simplify canon : Ty → Ty)
    (typeVar : Nat) (l : List (Constraint × Ty))
    (acc : PotentialBindings × List Ty)
    (h : acc.1.InvolvesTypeVariables = true) :
    (l.foldl (pbAboveStep simplify canon typeVar) acc).1.InvolvesTypeVariables
      = true := by
  induction l generalizing acc with
  | nil => simpa using h
  | cons a l ih =>
    exact ih _ (pbAboveStep_involves_mono simplify canon typeVar acc a h)

/-- Folding the conformance loop preserves `InvolvesTypeVariables`. -/
theorem foldl_pbConformsStep_involves_eq (canon : Ty → Ty)
    (lo : LiteralOracles) (l : List Constraint)
    (acc : PotentialBindings × List Ty) :
    (l.foldl (pbConformsStep canon lo) acc).1.InvolvesTypeVariables
      = acc.1.InvolvesTypeVariables := by
  induction l generalizing acc with
  | nil => rfl
  | cons a l ih => rw [List.foldl_cons, ih, pbConformsStep_involves_eq]

/-- A rejected lower bound anywhere in the loop forces
`InvolvesTypeVariables`. -/
theorem foldl_pbBelowStep_involves_of_reject (simplify canon : Ty → Ty)
    (typeVar : Nat) (l : List (Constraint × Ty))
    (acc : PotentialBindings × List Ty) (arg : Constraint × Ty)
    (hmem : arg ∈ l)
    (hrej : checkTypeOfBinding simplify typeVar (some arg.2) = none) :
    (l.foldl (pbBelowStep simplify canon typeVar) acc).1.InvolvesTypeVariables
      = true := by
  induction l generalizing acc with
  | nil => cases hmem
  | cons a l ih =>
    rcases List.mem_cons.mp hmem with h | h
    · subst h
      rw [List.foldl_cons]
      apply foldl_pbBelowStep_involves_mono
      unfold pbBelowStep
      rw [hrej]
    · exact ih _ h

/-- A rejected upper bound anywhere in the loop forces
`InvolvesTypeVariables`. -/
theorem foldl_pbAboveStep_involves_of_reject (simplify canon : Ty → Ty)
    (typeVar : Nat) (l : List (Constraint × Ty))
    (acc : PotentialBindings × List Ty) (arg : Constraint × Ty)
    (hmem : arg ∈ l)
    (hrej : checkTypeOfBinding simplify typeVar (some arg.2) = none) :
    (l.foldl (pbAboveStep simplify canon typeVar) acc).1.InvolvesTypeVariables
      = true := by
  induction l generalizing acc with
  | nil => cases hmem
  | cons a l ih =>
    rcases List.mem_cons.mp hmem with h | h
    · subst h
      rw [List.foldl_cons]
      apply foldl_pbAboveStep_involves_mono
      unfold pbAboveStep
      rw [hrej]
    · exact ih _ h

/-- Claim C10: whenever a lower-bound or upper-bound candidate of the
summary is rejected by `checkTypeOfBinding`, the potential-binding set
computed by `getPotentialBindings` has `InvolvesTypeVariables = true`,
so such a variable is never classified as one whose bindings involve no
type variables. -/
theorem getPotentialBindings_rejected_bound_involves (simplify canon : Ty → Ty)
    (lo : LiteralOracles) (tvc : TypeVariableConstraints)
    (arg : Constraint × Ty) (hmem : arg ∈ tvc.Below ∨ arg ∈ tvc.Above)
    (hrej : checkTypeOfBinding simplify tvc.TypeVar (some arg.2) = none) :
    (getPotentialBindings simplify canon lo tvc).InvolvesTypeVariables
      = true := by
  unfold getPotentialBindings
  rw [foldl_pbConformsStep_involves_eq]
  rcases hmem with h | h
  · exact foldl_pbAboveStep_involves_mono _ _ _ _ _
      (foldl_pbBelowStep_involves_of_reject _ _ _ _ _ _ h hrej)
  · exact foldl_pbAboveStep_involves_of_reject _ _ _ _ _ _ h hrej

/-- Witness for `getPotentialBindings_rejected_bound_involves`: a summary
whose single lower bound is the variable itself is rejected, and the
computed set involves type variables. -/
theorem getPotentialBindings_rejected_bound_involves_witness :
    ((⟨.subtype, Ty.base 0, Ty.base 0, 0, []⟩, Ty.tvar 0) ∈
        (⟨0, [], [], [(⟨.subtype, Ty.base 0, Ty.base 0, 0, []⟩, Ty.tvar 0)],
          false, false⟩ : TypeVariableConstraints).Below ∨
      (⟨.subtype, Ty.base 0, Ty.base 0, 0, []⟩, Ty.tvar 0) ∈
        (⟨0, [], [], [(⟨.subtype, Ty.base 0, Ty.base 0, 0, []⟩, Ty.tvar 0)],
          false, false⟩ : TypeVariableConstraints).Above) ∧
      checkTypeOfBinding id 0 (some (Ty.tvar 0)) = none ∧
      (getPotentialBindings id id ⟨fun _ => none, fun _ => false, fun _ => none⟩
          ⟨0, [], [], [(⟨.subtype, Ty.base 0, Ty.base 0, 0, []⟩, Ty.tvar 0)],
            false, false⟩).InvolvesTypeVariables = true :=
  ⟨Or.inl (by decide), by decide,
    getPotentialBindings_rejected_bound_involves id id
      ⟨fun _ => none, fun _ => false, fun _ => none⟩
      ⟨0, [], [], [(⟨.subtype, Ty.base 0, Ty.base 0, 0, []⟩, Ty.tvar 0)],
        false, false⟩
      (⟨.subtype, Ty.base 0, Ty.base 0, 0, []⟩, Ty.tvar 0)
      (Or.inl (by decide)) (by decide)⟩

/-- Unchanged fields of `processConstraint`: it never touches the
active list or the solver retired list, and appends exactly the
processed constraint to the inactive list. -/
theorem processConstraint_fields (simpC : Nat → SolKind)
    (st : GraphSimpState) (c : Nat) :
    (processConstraint simpC st c).constraints = st.constraints ∧
      (processConstraint simpC st c).solverRetired = st.solverRetired ∧
      (processConstraint simpC st c).inactive = st.inactive ++ [c] := by
  cases hd : simpC c <;> unfold processConstraint <;> rw [hd] <;> dsimp only
  · split <;> simp
  · simp
  · simp

/-- The graph after `processConstraint` is the old graph, or the old
graph with the processed constraint erased when it was solved. -/
theorem processConstraint_graph (simpC : Nat → SolKind)
    (st : GraphSimpState) (c : Nat) :
    (processConstraint simpC st c).graph =
      if simpC c = SolKind.solved then st.graph.erase c else st.graph := by
  cases hd : simpC c <;> unfold processConstraint <;> rw [hd] <;> dsimp only
  · split <;> simp [hd]
  · simp [hd]
  · simp [hd]

/-- The failed-constraint flag after `processConstraint`: set to the
processed constraint on a first error, otherwise unchanged. -/
theorem processConstraint_failed (simpC : Nat → SolKind)
    (st : GraphSimpState) (c : Nat) :
    (processConstraint simpC st c).failedConstraint =
      if simpC c = SolKind.error ∧ st.failedConstraint = none then some c
      else st.failedConstraint := by
  cases hd : simpC c <;> unfold processConstraint <;> rw [hd] <;> dsimp only
  · split <;> simp_all
  · simp [hd]
  · simp [hd]

/-- The worklist loop and the final transfer only ever erase graph
edges: any constraint in the resulting graph was already in the graph. -/
theorem simplifyGraphMode_graph_subset (simpC : Nat → SolKind)
    (worse : List Nat → Bool) (hasSS : Bool) (ws : List Nat) :
    ∀ (processed : List Nat) (st : GraphSimpState) (a : Nat),
      a ∈ (simplifyGraphMode simpC worse hasSS ws processed st).1.graph →
      a ∈ st.graph := by
  induction ws with
  | nil =>
    intro processed st a h
    simpa [simplifyGraphMode, transferRetired] using h
  | cons c ws ih =>
    intro processed st a h
    have hsub : ∀ b, b ∈ (processConstraint simpC st c).graph → b ∈ st.graph := by
      intro b hb
      rw [processConstraint_graph] at hb
      split at hb
      · exact List.mem_of_mem_erase hb
      · exact hb
    rw [simplifyGraphMode] at h
    split at h
    · apply hsub
      unfold failRetire at h
      split at h <;> simpa using h
    · split at h
      · exact hsub _ h
      · exact hsub _ (ih _ _ _ h)

/-- Field-level description of the failure path `failRetire`: the active
list is emptied, its contents move to the front of the solver retired
list exactly when there is solver state, the drained worklist is marked
inactive, and the failed flag is untouched. -/
theorem failRetire_fields (hasSS : Bool) (wl : List Nat)
    (st : GraphSimpState) :
    (failRetire hasSS wl st).constraints = [] ∧
      (failRetire hasSS wl st).solverRetired =
        (if hasSS then st.constraints ++ st.solverRetired
         else st.solverRetired) ∧
      (failRetire hasSS wl st).inactive = st.inactive ++ wl ∧
      (failRetire hasSS wl st).failedConstraint = st.failedConstraint := by
  unfold failRetire
  cases hasSS <;> simp

/-- Claim C3: in graph-mode simplification, when the per-constraint
simplifier first returns `error` at constraint `c` (no earlier worklist
constraint errs, and the score never trips the best-solution pruning
before that), then: `c` is recorded as the failed constraint, every
processed and every remaining worklist constraint is marked inactive,
all constraints still in the active list are moved wholesale to the
retired list (or erased when there is no solver state, the active list
becoming empty either way), and `simplify` returns failure (`true`). -/
theorem simplifyGraphMode_error_path (simpC : Nat → SolKind)
    (worse : List Nat → Bool) (hasSS : Bool) (pre : List Nat) :
    ∀ (c : Nat) (post processed : List Nat) (st : GraphSimpState),
      st.failedConstraint = none →
      (∀ d ∈ pre, simpC d ≠ SolKind.error) →
      simpC c = SolKind.error →
      (∀ k, 0 < k → k ≤ pre.length → worse (processed ++ pre.take k) = false) →
      (simplifyGraphMode simpC worse hasSS (pre ++ c :: post) processed st).2
          = true ∧
        (simplifyGraphMode simpC worse hasSS (pre ++ c :: post) processed
            st).1.failedConstraint = some c ∧
        (simplifyGraphMode simpC worse hasSS (pre ++ c :: post) processed
            st).1.constraints = [] ∧
        (simplifyGraphMode simpC worse hasSS (pre ++ c :: post) processed
            st).1.solverRetired =
          (if hasSS then st.constraints ++ st.solverRetired
           else st.solverRetired) ∧
        (simplifyGraphMode simpC worse hasSS (pre ++ c :: post) processed
            st).1.inactive = st.inactive ++ pre ++ c :: post := by
  induction pre with
  | nil =>
    intro c post processed st hfail _ herr _
    obtain ⟨f1, f2, f3⟩ := processConstraint_fields simpC st c
    have hfc : (processConstraint simpC st c).failedConstraint = some c := by
      rw [processConstraint_failed]
      simp [herr, hfail]
    have heq : simplifyGraphMode simpC worse hasSS ([] ++ c :: post)
        processed st = (failRetire hasSS post (processConstraint simpC st c),
          true) := by
      rw [List.nil_append, simplifyGraphMode]
      simp [hfc]
    obtain ⟨g1, g2, g3, _⟩ :=
      failRetire_fields hasSS post (processConstraint simpC st c)
    rw [heq]
    refine ⟨rfl, ?_, ?_, ?_, ?_⟩
    · have := (failRetire_fields hasSS post (processConstraint simpC st c)).2.2.2
      rw [this, hfc]
    · exact g1
    · rw [g2, f1, f2]
    · rw [g3, f3]
      simp
  | cons d pre ih =>
    intro c post processed st hfail hpre herr hworse
    obtain ⟨f1, f2, f3⟩ := processConstraint_fields simpC st d
    have hfd : (processConstraint simpC st d).failedConstraint = none := by
      have hne : ¬(simpC d = SolKind.error ∧ st.failedConstraint = none) := by
        rintro ⟨h1, -⟩
        exact hpre d (List.mem_cons_self d pre) h1
      rw [processConstraint_failed, if_neg hne, hfail]
    have hw1 : worse (processed ++ [d]) = false := by
      have := hworse 1 (by omega) (by simp)
      simpa using this
    have heq : simplifyGraphMode simpC worse hasSS ((d :: pre) ++ c :: post)
        processed st =
        simplifyGraphMode simpC worse hasSS (pre ++ c :: post)
          (processed ++ [d]) (processConstraint simpC st d) := by
      rw [List.cons_append, simplifyGraphMode]
      rw [if_neg (by simp [hfd])]
      rw [if_neg (by simp [hw1])]
    have hworse' : ∀ k, 0 < k → k ≤ pre.length →
        worse ((processed ++ [d]) ++ pre.take k) = false := by
      intro k hk hk2
      have := hworse (k + 1) (by omega) (by simpa using hk2)
      simpa [List.take_succ_cons, List.append_assoc] using this
    have hpre' : ∀ e ∈ pre, simpC e ≠ SolKind.error := fun e he =>
      hpre e (List.mem_cons_of_mem d he)
    obtain ⟨i1, i2, i3, i4, i5⟩ :=
      ih c post (processed ++ [d]) (processConstraint simpC st d) hfd hpre'
        herr hworse'
    rw [heq]
    refine ⟨i1, i2, i3, ?_, ?_⟩
    · rw [i4, f1, f2]
    · rw [i5, f3]
      simp

/-- Claim C9: in graph-mode simplification, when the loop aborts early
because the score became worse than or equal to the best known solution
(after processing the nonempty prefix `pre` of the worklist, none of
which erred), the function returns failure with the active constraint
list and the solver retired list untouched — the transfer of solved
constraints is skipped — while every constraint of the prefix that the
simplifier reported solved has already been removed from the constraint
graph. -/
theorem simplifyGraphMode_worse_path (simpC : Nat → SolKind)
    (worse : List Nat → Bool) (hasSS : Bool) (pre : List Nat) :
    ∀ (rest processed : List Nat) (st : GraphSimpState),
      st.failedConstraint = none →
      pre ≠ [] →
      (∀ d ∈ pre, simpC d ≠ SolKind.error) →
      (∀ k, 0 < k → k < pre.length → worse (processed ++ pre.take k) = false) →
      worse (processed ++ pre) = true →
      st.graph.Nodup →
      (simplifyGraphMode simpC worse hasSS (pre ++ rest) processed st).2
          = true ∧
        (simplifyGraphMode simpC worse hasSS (pre ++ rest) processed
            st).1.constraints = st.constraints ∧
        (simplifyGraphMode simpC worse hasSS (pre ++ rest) processed
            st).1.solverRetired = st.solverRetired ∧
        (∀ d ∈ pre, simpC d = SolKind.solved →
          d ∉ (simplifyGraphMode simpC worse hasSS (pre ++ rest) processed
            st).1.graph) := by
  induction pre with
  | nil =>
    intro rest processed st _ hne
    exact absurd rfl hne
  | cons d pre ih =>
    intro rest processed st hfail _ hpre hmid hlast hnd
    obtain ⟨f1, f2, f3⟩ := processConstraint_fields simpC st d
    have hfd : (processConstraint simpC st d).failedConstraint = none := by
      have hne2 : ¬(simpC d = SolKind.error ∧ st.failedConstraint = none) := by
        rintro ⟨h1, -⟩
        exact hpre d (List.mem_cons_self d pre) h1
      rw [processConstraint_failed, if_neg hne2, hfail]
    have hgd : (processConstraint simpC st d).graph =
        if simpC d = SolKind.solved then st.graph.erase d else st.graph :=
      processConstraint_graph simpC st d
    cases pre with
    | nil =>
      have heq : simplifyGraphMode simpC worse hasSS ([d] ++ rest)
          processed st = (processConstraint simpC st d, true) := by
        rw [List.cons_append, List.nil_append, simplifyGraphMode]
        rw [if_neg (by simp [hfd])]
        rw [if_pos (by simpa using hlast)]
      rw [heq]
      refine ⟨rfl, f1, f2, ?_⟩
      intro e he hsolved
      rw [List.mem_singleton] at he
      subst he
      rw [hgd, if_pos hsolved]
      intro hmem
      exact absurd (hnd.mem_erase_iff.mp hmem).1 (by simp)
    | cons e pre' =>
      have hw1 : worse (processed ++ [d]) = false := by
        have := hmid 1 (by omega) (by simp)
        simpa using this
      have heq : simplifyGraphMode simpC worse hasSS
          ((d :: e :: pre') ++ rest) processed st =
          simplifyGraphMode simpC worse hasSS ((e :: pre') ++ rest)
            (processed ++ [d]) (processConstraint simpC st d) := by
        rw [List.cons_append, simplifyGraphMode]
        rw [if_neg (by simp [hfd])]
        rw [if_neg (by simp [hw1])]
      have hnd2 : (processConstraint simpC st d).graph.Nodup := by
        rw [hgd]
        split
        · exact hnd.erase d
        · exact hnd
      have hmid' : ∀ k, 0 < k → k < (e :: pre').length →
          worse ((processed ++ [d]) ++ (e :: pre').take k) = false := by
        intro k hk hk2
        have := hmid (k + 1) (by omega) (by simpa using hk2)
        simpa [List.take_succ_cons, List.append_assoc] using this
      have hlast' : worse ((processed ++ [d]) ++ (e :: pre')) = true := by
        simpa [List.append_assoc] using hlast
      have hpre' : ∀ x ∈ e :: pre', simpC x ≠ SolKind.error := fun x hx =>
        hpre x (List.mem_cons_of_mem d hx)
      obtain ⟨i1, i2, i3, i4⟩ :=
        ih rest (processed ++ [d]) (processConstraint simpC st d) hfd
          (by simp) hpre' hmid' hlast' hnd2
      rw [heq]
      refine ⟨i1, by rw [i2, f1], by rw [i3, f2], ?_⟩
      intro x hx hsolved
      rcases List.mem_cons.mp hx with hx | hx
      · subst hx
        intro hmem
        have hsub := simplifyGraphMode_graph_subset simpC worse hasSS
          ((e :: pre') ++ rest) (processed ++ [x])
          (processConstraint simpC st x) x hmem
        rw [hgd, if_pos hsolved] at hsub
        exact absurd (hnd.mem_erase_iff.mp hsub).1 (by simp)
      · exact i4 x hx hsolved

/-- Witness for `simplifyGraphMode_error_path`: a three-element worklist
whose middle constraint errs fails with that constraint recorded. -/
theorem simplifyGraphMode_error_path_witness :
    (simplifyGraphMode
        (fun c => if c = 1 then SolKind.error else SolKind.unsolved)
        (fun _ => false) true ([0] ++ 1 :: [2]) []
        ⟨[0, 1, 2, 3], [0, 1], [9], [], [], none⟩).2 = true ∧
      (simplifyGraphMode
          (fun c => if c = 1 then SolKind.error else SolKind.unsolved)
          (fun _ => false) true ([0] ++ 1 :: [2]) []
          ⟨[0, 1, 2, 3], [0, 1], [9], [], [], none⟩).1.failedConstraint
        = some 1 := by
  have T := simplifyGraphMode_error_path
    (fun c => if c = 1 then SolKind.error else SolKind.unsolved)
    (fun _ => false) true [0] 1 [2] []
    ⟨[0, 1, 2, 3], [0, 1], [9], [], [], none⟩ rfl (by decide) rfl
    (fun _ _ _ => rfl)
  exact ⟨T.1, T.2.1⟩

/-- Witness for `simplifyGraphMode_worse_path`: a first constraint is
solved, the score check then aborts; the active list is untouched and
the solved constraint has left the graph. -/
theorem simplifyGraphMode_worse_path_witness :
    (simplifyGraphMode (fun _ => SolKind.solved) (fun _ => true) true
        ([0] ++ [5]) [] ⟨[0, 5], [0, 7], [], [], [], none⟩).2 = true ∧
      (simplifyGraphMode (fun _ => SolKind.solved) (fun _ => true) true
          ([0] ++ [5]) [] ⟨[0, 5], [0, 7], [], [], [], none⟩).1.constraints
        = [0, 5] ∧
      0 ∉ (simplifyGraphMode (fun _ => SolKind.solved) (fun _ => true) true
          ([0] ++ [5]) [] ⟨[0, 5], [0, 7], [], [], [], none⟩).1.graph := by
  have T := simplifyGraphMode_worse_path (fun _ => SolKind.solved)
    (fun _ => true) true [0] [5] [] ⟨[0, 5], [0, 7], [], [], [], none⟩ rfl
    (by decide) (by decide) (fun k hk hk2 => by simp at hk2; omega) rfl
    (by decide)
  exact ⟨T.1, T.2.1, T.2.2.2 0 (by decide) rfl⟩

/-- Witness for `solveTopLevel_success_iff`: two accumulated solutions
with a unique best (index 0) are filtered to that single solution and
the call succeeds. -/
theorem solveTopLevel_success_iff_witness :
    (solveTopLevel [5, 7]
        (fun l => if h : 0 < l.length then some ⟨0, h⟩ else none)).1 = [5] ∧
      (solveTopLevel [5, 7]
          (fun l => if h : 0 < l.length then some ⟨0, h⟩ else none)).2
        = false :=
  (solveTopLevel_success_iff [5, 7]
      (fun l => if h : 0 < l.length then some ⟨0, h⟩ else none)).2.2.1
    ⟨0, by decide⟩ (by decide) rfl

/-- Marking a variable fully bound does not touch the referenced list. -/
theorem setFullyBound_referenced (rep : Nat → Nat) (s : ClassifierState)
    (v : Nat) : (setFullyBound rep s v).referenced = s.referenced := rfl

/-- Folding fully-bound marks does not touch the referenced list. -/
theorem foldl_setFullyBound_referenced (rep : Nat → Nat) (l : List Nat) :
    ∀ s : ClassifierState,
      (l.foldl (setFullyBound rep) s).referenced = s.referenced := by
  induction l with
  | nil => intro s; rfl
  | cons a l ih => intro s; rw [List.foldl_cons, ih, setFullyBound_referenced]

/-- One inner disjunction constraint only appends to the referenced
list. -/
theorem addInnerRefs_referenced (simplify : Ty → Ty) (s : ClassifierState)
    (inner : InnerConstraint) :
    ∃ ext, (addInnerRefs simplify s inner).referenced
      = s.referenced ++ ext := by
  unfold addInnerRefs
  cases inner.second <;> dsimp only
  · exact ⟨_, rfl⟩
  · exact ⟨_, by rw [List.append_assoc]⟩

/-- One direct disjunction member only appends to the referenced list. -/
theorem addDisjunctionRefs_referenced (simplify : Ty → Ty)
    (dis : NestedConstraint) :
    ∀ s : ClassifierState,
      ∃ ext, (addDisjunctionRefs simplify s dis).referenced
        = s.referenced ++ ext := by
  unfold addDisjunctionRefs
  generalize (if dis.kind = ConstraintKind.conjunction then dis.children
    else [⟨dis.first, dis.second⟩]) = inners
  induction inners with
  | nil => intro s; exact ⟨[], by simp⟩
  | cons a l ih =>
    intro s
    obtain ⟨e1, h1⟩ := addInnerRefs_referenced simplify s a
    obtain ⟨e2, h2⟩ := ih (addInnerRefs simplify s a)
    exact ⟨e1 ++ e2, by rw [List.foldl_cons, h2, h1, List.append_assoc]⟩

/-- Folding disjunction members only appends to the referenced list. -/
theorem foldl_addDisjunctionRefs_referenced (simplify : Ty → Ty)
    (l : List NestedConstraint) :
    ∀ s : ClassifierState,
      ∃ ext, (l.foldl (addDisjunctionRefs simplify) s).referenced
        = s.referenced ++ ext := by
  induction l with
  | nil => intro s; exact ⟨[], by simp⟩
  | cons a l ih =>
    intro s
    obtain ⟨e1, h1⟩ := addDisjunctionRefs_referenced simplify a s
    obtain ⟨e2, h2⟩ := ih (addDisjunctionRefs simplify s a)
    exact ⟨e1 ++ e2, by rw [List.foldl_cons, h2, h1, List.append_assoc]⟩

/-- Classifying one constraint only appends to the referenced list. -/
theorem classifyOne_referenced_extend (simplify : Ty → Ty) (rep : Nat → Nat)
    (st : ClassifierState) (c : Constraint) :
    ∃ ext, (classifyOne simplify rep st c).referenced
      = st.referenced ++ ext := by
  unfold classifyOne
  split
  · by_cases hco : c.kind = ConstraintKind.conformsTo ∨
        c.kind = ConstraintKind.selfObjectOfProtocol
    · rw [if_pos hco]
      try dsimp only
      split
      · exact ⟨[], by simp⟩
      · exact ⟨[], by simp⟩
    · rw [if_neg hco]
      by_cases haf : c.kind = ConstraintKind.applicableFunction
      · rw [if_pos haf]
        try dsimp only
        exact ⟨(simplify c.second).typeVariables,
          by rw [foldl_setFullyBound_referenced]⟩
      · rw [if_neg haf]
        try dsimp only
        cases hft : (match simplify c.first with
            | Ty.tvar v => some v | _ => none : Option Nat) <;>
          cases hst : (match simplify c.second with
              | Ty.tvar v => some v | _ => none : Option Nat) <;>
          try dsimp only
        · exact ⟨_, by rw [List.append_assoc]⟩
        · exact ⟨_, rfl⟩
        · exact ⟨_, rfl⟩
        · exact ⟨_, rfl⟩
  · try dsimp only
    split_ifs
    · exact ⟨[], by simp⟩
    · exact ⟨_, rfl⟩
  · try dsimp only
    split_ifs
    · exact ⟨_, rfl⟩
    · exact ⟨[], by rw [foldl_setFullyBound_referenced]; simp⟩
  · exact ⟨[], by simp⟩
  · obtain ⟨ext, hx⟩ := foldl_addDisjunctionRefs_referenced simplify c.nested
      { st with disjunctions := st.disjunctions ++ [c] }
    exact ⟨ext, hx⟩

/-- Walking any constraint list only appends to the referenced list. -/
theorem foldl_classifyOne_referenced_extend (simplify : Ty → Ty)
    (rep : Nat → Nat) (cs : List Constraint) :
    ∀ st : ClassifierState,
      ∃ ext, (cs.foldl (classifyOne simplify rep) st).referenced
        = st.referenced ++ ext := by
  induction cs with
  | nil => intro st; exact ⟨[], by simp⟩
  | cons a l ih =>
    intro st
    obtain ⟨e1, h1⟩ := classifyOne_referenced_extend simplify rep st a
    obtain ⟨e2, h2⟩ := ih (classifyOne simplify rep st a)
    exact ⟨e1 ++ e2, by rw [List.foldl_cons, h2, h1, List.append_assoc]⟩

/-- A type-property constraint whose simplified type is not a bare type
variable appends exactly that type's variables to the referenced list. -/
theorem classifyOne_typeProperty_referenced (simplify : Ty → Ty)
    (rep : Nat → Nat) (st : ClassifierState) (c : Constraint)
    (hk : c.kind = ConstraintKind.typeProperty)
    (hbare : (simplify c.first).isTypeVariable = false) :
    (classifyOne simplify rep st c).referenced
      = st.referenced ++ (simplify c.first).typeVariables := by
  unfold classifyOne
  rw [hk]
  dsimp only [ConstraintKind.classification]
  rw [if_neg (by simp [hbare])]

/-- A bare-type-variable type-property constraint leaves the classifier
state untouched. -/
theorem classifyOne_typeProperty_bare (simplify : Ty → Ty)
    (rep : Nat → Nat) (st : ClassifierState) (c : Constraint)
    (hk : c.kind = ConstraintKind.typeProperty)
    (hbare : (simplify c.first).isTypeVariable = true) :
    classifyOne simplify rep st c = st := by
  unfold classifyOne
  rw [hk]
  dsimp only [ConstraintKind.classification]
  rw [if_pos (by simp [hbare])]

/-- Variables of a non-bare type-property constraint reach the
referenced list of the whole walk. -/
theorem walk_referenced_mem (simplify : Ty → Ty) (rep : Nat → Nat)
    (cs : List Constraint) :
    ∀ (st : ClassifierState) (c : Constraint) (v : Nat), c ∈ cs →
      c.kind = ConstraintKind.typeProperty →
      (simplify c.first).isTypeVariable = false →
      v ∈ (simplify c.first).typeVariables →
      v ∈ (cs.foldl (classifyOne simplify rep) st).referenced := by
  induction cs with
  | nil =>
    intro st c v hmem
    cases hmem
  | cons a l ih =>
    intro st c v hmem hk hbare hv
    rcases List.mem_cons.mp hmem with h | h
    · subst h
      rw [List.foldl_cons]
      obtain ⟨ext, hx⟩ := foldl_classifyOne_referenced_extend simplify rep l
        (classifyOne simplify rep st c)
      rw [hx, classifyOne_typeProperty_referenced simplify rep st c hk hbare]
      simp [hv]
    · exact ih _ c v h hk hbare hv

/-- Marking one referenced variable does not touch the referenced list. -/
theorem markOne_referenced (rep : Nat → Nat) (s : ClassifierState)
    (tv : Nat) : (markOne rep s tv).referenced = s.referenced := by
  unfold markOne
  dsimp only
  split <;> rfl

/-- The marking loop does not touch the referenced list. -/
theorem foldl_markOne_referenced (rep : Nat → Nat) (l : List Nat) :
    ∀ s : ClassifierState,
      (l.foldl (markOne rep) s).referenced = s.referenced := by
  induction l with
  | nil => intro s; rfl
  | cons a l ih => intro s; rw [List.foldl_cons, ih, markOne_referenced]

/-- After marking variable `v`, every summary of `rep v` has its
non-concrete flag set (vacuously when there is no such summary). -/
theorem markOne_flag_self (rep : Nat → Nat) (s : ClassifierState) (v : Nat) :
    ∀ t ∈ (markOne rep s v).typeVarConstraints,
      t.TypeVar = rep v → t.HasNonConcreteConstraints = true := by
  intro t ht htv
  unfold markOne at ht
  dsimp only at ht
  split at ht
  · dsimp only at ht
    obtain ⟨t0, ht0, rfl⟩ := List.mem_map.mp ht
    by_cases h0 : t0.TypeVar = rep v
    · simp [h0]
    · simp only [beq_iff_eq, if_neg h0] at htv ⊢
      exact absurd htv h0
  · rename_i hany
    rw [List.any_eq_true] at hany
    push_neg at hany
    exact absurd (by simpa using htv) (by simpa using hany t ht)

/-- Marking any variable preserves already-set non-concrete flags. -/
theorem markOne_flag_preserve (rep : Nat → Nat) (s : ClassifierState)
    (w x : Nat)
    (hs : ∀ t ∈ s.typeVarConstraints,
      t.TypeVar = x → t.HasNonConcreteConstraints = true) :
    ∀ t ∈ (markOne rep s w).typeVarConstraints,
      t.TypeVar = x → t.HasNonConcreteConstraints = true := by
  intro t ht htv
  unfold markOne at ht
  dsimp only at ht
  split at ht
  · dsimp only at ht
    obtain ⟨t0, ht0, rfl⟩ := List.mem_map.mp ht
    by_cases h0 : t0.TypeVar = rep w
    · simp [h0]
    · simp only [beq_iff_eq, if_neg h0] at htv ⊢
      exact hs t0 ht0 htv
  · exact hs t ht htv

/-- The marking loop preserves already-set non-concrete flags. -/
theorem foldl_markOne_flag_preserve (rep : Nat → Nat) (l : List Nat) :
    ∀ (s : ClassifierState) (x : Nat),
      (∀ t ∈ s.typeVarConstraints,
        t.TypeVar = x → t.HasNonConcreteConstraints = true) →
      ∀ t ∈ (l.foldl (markOne rep) s).typeVarConstraints,
        t.TypeVar = x → t.HasNonConcreteConstraints = true := by
  induction l with
  | nil => intro s x hs; exact hs
  | cons a l ih =>
    intro s x hs
    rw [List.foldl_cons]
    exact ih _ x (markOne_flag_preserve rep s a x hs)

/-- Every variable in the processed list has all summaries of its
representative flagged after the marking loop. -/
theorem foldl_markOne_flag (rep : Nat → Nat) (l : List Nat) :
    ∀ (s : ClassifierState) (v : Nat), v ∈ l →
      ∀ t ∈ (l.foldl (markOne rep) s).typeVarConstraints,
        t.TypeVar = rep v → t.HasNonConcreteConstraints = true := by
  induction l with
  | nil =>
    intro s v hv
    cases hv
  | cons a l ih =>
    intro s v hv
    rcases List.mem_cons.mp hv with h | h
    · subst h
      rw [List.foldl_cons]
      exact foldl_markOne_flag_preserve rep l (markOne rep s v) (rep v)
        (markOne_flag_self rep s v)
    · rw [List.foldl_cons]
      exact ih _ v h

/-- Claim C7, counterexample: a type-property constraint whose
(simplified) constrained type is itself a bare type variable adds
nothing to the referenced set — the source guards the walk with
a bare-type-variable test — so a variable with a summary from another
constraint keeps `HasNonConcreteConstraints = false`, contradicting the
claim that the bare-variable case is included. -/
theorem collectConstraints_typeProperty_counterexample :
    (collectConstraintsForTypeVariables id id
        [⟨ConstraintKind.typeProperty, Ty.tvar 0, Ty.base 9, 0, []⟩,
         ⟨ConstraintKind.subtype, Ty.tvar 0, Ty.base 5, 0, []⟩]).referenced
        = [] ∧
      (collectConstraintsForTypeVariables id id
          [⟨ConstraintKind.typeProperty, Ty.tvar 0, Ty.base 9, 0, []⟩,
           ⟨ConstraintKind.subtype, Ty.tvar 0, Ty.base 5, 0,
             []⟩]).typeVarConstraints.map
          (fun t => (t.TypeVar, t.HasNonConcreteConstraints))
        = [(0, false)] := by
  constructor <;> rfl

/-- Claim C7, amended: when the classifier walks a type-property
constraint whose simplified constrained type is NOT itself a bare type
variable, every type variable occurring in that type is added to the
referenced set, and every summary of its representative ends up with
`HasNonConcreteConstraints = true`.  (A bare type variable is skipped by
the `isa` guard and contributes nothing.) -/
theorem collectConstraints_typeProperty_referenced (simplify : Ty → Ty)
    (rep : Nat → Nat) (cs : List Constraint) (c : Constraint) (v : Nat)
    (hc : c ∈ cs) (hk : c.kind = ConstraintKind.typeProperty)
    (hbare : (simplify c.first).isTypeVariable = false)
    (hv : v ∈ (simplify c.first).typeVariables) :
    v ∈ (collectConstraintsForTypeVariables simplify rep cs).referenced ∧
      ∀ t ∈ (collectConstraintsForTypeVariables simplify rep
          cs).typeVarConstraints,
        t.TypeVar = rep v → t.HasNonConcreteConstraints = true := by
  unfold collectConstraintsForTypeVariables markReferenced
  have hvr : v ∈ (cs.foldl (classifyOne simplify rep)
      ⟨[], [], []⟩).referenced :=
    walk_referenced_mem simplify rep cs ⟨[], [], []⟩ c v hc hk hbare hv
  constructor
  · rw [foldl_markOne_referenced]
    exact hvr
  · exact foldl_markOne_flag rep _ _ v hvr

/-- Witness for `collectConstraints_typeProperty_referenced`: a
type-property constraint on a function type containing variable `0`
references `0`. -/
theorem collectConstraints_typeProperty_referenced_witness :
    0 ∈ (collectConstraintsForTypeVariables id id
        [⟨ConstraintKind.typeProperty,
           Ty.fn (Ty.tvar 0) (Ty.base 1) false, Ty.base 9, 0, []⟩,
         ⟨ConstraintKind.subtype, Ty.tvar 0, Ty.base 5, 0,
           []⟩]).referenced :=
  (collectConstraints_typeProperty_referenced id id
      [⟨ConstraintKind.typeProperty,
         Ty.fn (Ty.tvar 0) (Ty.base 1) false, Ty.base 9, 0, []⟩,
       ⟨ConstraintKind.subtype, Ty.tvar 0, Ty.base 5, 0, []⟩]
      ⟨ConstraintKind.typeProperty, Ty.fn (Ty.tvar 0) (Ty.base 1) false,
        Ty.base 9, 0, []⟩ 0 (by decide) rfl rfl (by decide)).1

/-- The literal phase only appends, to both components. -/
theorem literalPhase_fold_extend (canon : Ty → Ty) (alts : List Ty) :
    ∀ acc : List (Ty × Bool) × List Ty,
      ∃ e1 e2, alts.foldl
        (fun acc t =>
          if acc.2.contains (canon t) then acc
          else (acc.1 ++ [(t, true)], acc.2 ++ [canon t])) acc
        = (acc.1 ++ e1, acc.2 ++ e2) := by
  induction alts with
  | nil => intro acc; exact ⟨[], [], by simp⟩
  | cons a l ih =>
    intro acc
    rw [List.foldl_cons]
    by_cases h : acc.2.contains (canon a)
    · rw [if_pos h]
      exact ih acc
    · rw [if_neg h]
      obtain ⟨e1, e2, hx⟩ := ih (acc.1 ++ [(a, true)], acc.2 ++ [canon a])
      exact ⟨(a, true) :: e1, canon a :: e2, by rw [hx]; simp⟩

/-- When the literal phase adds no new candidate, it also leaves the
explored set unchanged. -/
theorem literalPhase_empty_explored (canon : Ty → Ty) (alts : List Ty) :
    ∀ explored, (literalPhase canon alts explored).1 = [] →
      (literalPhase canon alts explored).2 = explored := by
  unfold literalPhase
  induction alts with
  | nil => intro e _; rfl
  | cons a l ih =>
    intro e h
    rw [List.foldl_cons] at h ⊢
    dsimp only at h ⊢
    by_cases hc : e.contains (canon a)
    · rw [if_pos hc] at h ⊢
      exact ih e h
    · rw [if_neg hc] at h ⊢
      exfalso
      obtain ⟨e1, e2, hx⟩ := literalPhase_fold_extend canon l
        ([] ++ [(a, true)], e ++ [canon a])
      rw [hx] at h
      simp at h

/-- One supertype-candidate step only appends, to both components. -/
theorem superInner_extend (simplify canon : Ty → Ty) (v : Nat)
    (acc : List (Ty × Bool) × List Ty) (s : Ty) :
    ∃ e1 e2, superInner simplify canon v acc s = (acc.1 ++ e1, acc.2 ++ e2) := by
  unfold superInner
  cases checkTypeOfBinding simplify v (some s) <;> dsimp only
  · exact ⟨[], [], by simp⟩
  · split_ifs
    · exact ⟨[], [], by simp⟩
    · exact ⟨_, _, rfl⟩

/-- Folding supertype candidates only appends, to both components. -/
theorem foldl_superInner_extend (simplify canon : Ty → Ty) (v : Nat)
    (sl : List Ty) :
    ∀ acc : List (Ty × Bool) × List Ty,
      ∃ e1 e2, sl.foldl (superInner simplify canon v) acc
        = (acc.1 ++ e1, acc.2 ++ e2) := by
  induction sl with
  | nil => intro acc; exact ⟨[], [], by simp⟩
  | cons a sl ih =>
    intro acc
    rw [List.foldl_cons]
    obtain ⟨e1, e2, h1⟩ := superInner_extend simplify canon v acc a
    obtain ⟨f1, f2, h2⟩ := ih (superInner simplify canon v acc a)
    exact ⟨e1 ++ f1, e2 ++ f2, by rw [h2, h1]; simp⟩

/-- Folding whole tried bindings only appends, to both components. -/
theorem foldl_superOuter_extend (simplify canon : Ty → Ty)
    (supers : Ty → List Ty) (v : Nat) (tried : List (Ty × Bool)) :
    ∀ acc : List (Ty × Bool) × List Ty,
      ∃ e1 e2, tried.foldl
        (fun acc binding =>
          (supers binding.1).foldl (superInner simplify canon v) acc) acc
        = (acc.1 ++ e1, acc.2 ++ e2) := by
  induction tried with
  | nil => intro acc; exact ⟨[], [], by simp⟩
  | cons b tried ih =>
    intro acc
    rw [List.foldl_cons]
    obtain ⟨e1, e2, h1⟩ := foldl_superInner_extend simplify canon v
      (supers b.1) acc
    obtain ⟨f1, f2, h2⟩ :=
      ih ((supers b.1).foldl (superInner simplify canon v) acc)
    exact ⟨e1 ++ f1, e2 ++ f2, by rw [h2, h1]; simp⟩

/-- Any accepted supertype of a candidate list member has its canonical
form in the explored set after the inner fold. -/
theorem foldl_superInner_mem (simplify canon : Ty → Ty) (v : Nat)
    (sl : List Ty) :
    ∀ (acc : List (Ty × Bool) × List Ty) (s : Ty) (s' : Ty), s ∈ sl →
      checkTypeOfBinding simplify v (some s) = some s' →
      canon s' ∈ (sl.foldl (superInner simplify canon v) acc).2 := by
  induction sl with
  | nil =>
    intro acc s s' hs
    cases hs
  | cons a sl ih =>
    intro acc s s' hs hck
    rw [List.foldl_cons]
    rcases List.mem_cons.mp hs with h | h
    · subst h
      obtain ⟨e1, e2, hx⟩ := foldl_superInner_extend simplify canon v sl
        (superInner simplify canon v acc s)
      rw [hx]
      have : canon s' ∈ (superInner simplify canon v acc s).2 := by
        unfold superInner
        rw [hck]
        dsimp only
        split_ifs with hc
        · simpa using hc
        · simp
      simp only [List.mem_append]
      exact Or.inl this
    · exact ih _ s s' h hck

/-- Any accepted supertype of any tried binding has its canonical form
in the explored set after `superStep`. -/
theorem superStep_mem (simplify canon : Ty → Ty) (supers : Ty → List Ty)
    (v : Nat) (tried : List (Ty × Bool)) :
    ∀ (acc : List (Ty × Bool) × List Ty) (t : Ty × Bool) (s s' : Ty),
      t ∈ tried → s ∈ supers t.1 →
      checkTypeOfBinding simplify v (some s) = some s' →
      canon s' ∈ (tried.foldl
        (fun acc binding =>
          (supers binding.1).foldl (superInner simplify canon v) acc)
        acc).2 := by
  induction tried with
  | nil =>
    intro acc t s s' ht
    cases ht
  | cons b tried ih =>
    intro acc t s s' ht hs hck
    rw [List.foldl_cons]
    rcases List.mem_cons.mp ht with h | h
    · subst h
      obtain ⟨e1, e2, hx⟩ := foldl_superOuter_extend simplify canon supers v
        tried ((supers t.1).foldl (superInner simplify canon v) acc)
      rw [hx]
      simp only [List.mem_append]
      exact Or.inl (foldl_superInner_mem simplify canon v (supers t.1) acc
        s s' hs hck)
    · exact ih _ t s s' h hs hck

/-- Supertype candidates that are all already explored leave the inner
fold state unchanged. -/
theorem foldl_superInner_id (simplify canon : Ty → Ty) (v : Nat)
    (sl : List Ty) :
    ∀ acc : List (Ty × Bool) × List Ty,
      (∀ s ∈ sl, ∀ s', checkTypeOfBinding simplify v (some s) = some s' →
        canon s' ∈ acc.2) →
      sl.foldl (superInner simplify canon v) acc = acc := by
  induction sl with
  | nil => intro acc _; rfl
  | cons a sl ih =>
    intro acc hdead
    rw [List.foldl_cons]
    have hstep : superInner simplify canon v acc a = acc := by
      unfold superInner
      cases hck : checkTypeOfBinding simplify v (some a)
      · rfl
      · dsimp only
        rw [if_pos]
        simpa using hdead a (by simp) _ hck
    rw [hstep]
    exact ih acc (fun s hs => hdead s (List.mem_cons_of_mem a hs))

/-- Tried bindings whose accepted supertypes are all already explored
leave the outer fold state unchanged. -/
theorem foldl_superOuter_id (simplify canon : Ty → Ty)
    (supers : Ty → List Ty) (v : Nat) (l1 : List (Ty × Bool)) :
    ∀ acc : List (Ty × Bool) × List Ty,
      (∀ t ∈ l1, ∀ s ∈ supers t.1, ∀ s',
        checkTypeOfBinding simplify v (some s) = some s' →
        canon s' ∈ acc.2) →
      l1.foldl
        (fun acc binding =>
          (supers binding.1).foldl (superInner simplify canon v) acc) acc
        = acc := by
  induction l1 with
  | nil => intro acc _; rfl
  | cons b l1 ih =>
    intro acc hdead
    rw [List.foldl_cons]
    have hstep : (supers b.1).foldl (superInner simplify canon v) acc
        = acc :=
      foldl_superInner_id simplify canon v (supers b.1) acc
        (fun s hs s' hck => hdead b (by simp) s hs s' hck)
    rw [hstep]
    exact ih acc (fun t ht => hdead t (List.mem_cons_of_mem b ht))

/-- Tried bindings whose accepted supertypes are all already explored
contribute nothing to `superStep`. -/
theorem superStep_append_dead (simplify canon : Ty → Ty)
    (supers : Ty → List Ty) (v : Nat) (l1 l2 : List (Ty × Bool))
    (explored : List Ty)
    (hdead : ∀ t ∈ l1, ∀ s ∈ supers t.1, ∀ s',
      checkTypeOfBinding simplify v (some s) = some s' →
      canon s' ∈ explored) :
    superStep simplify canon supers v (l1 ++ l2) explored
      = superStep simplify canon supers v l2 explored := by
  unfold superStep
  rw [List.foldl_append]
  rw [foldl_superOuter_id simplify canon supers v l1 ([], explored) hdead]

/-- Membership in the explored set survives `superStep`. -/
theorem superStep_explored_mem (simplify canon : Ty → Ty)
    (supers : Ty → List Ty) (v : Nat) (tried : List (Ty × Bool))
    (explored : List Ty) (x : Ty) (hx : x ∈ explored) :
    x ∈ (superStep simplify canon supers v tried explored).2 := by
  unfold superStep
  obtain ⟨e1, e2, h⟩ := foldl_superOuter_extend simplify canon supers v tried
    ([], explored)
  rw [h]
  simp only [List.mem_append]
  exact Or.inl hx

/-- Any accepted supertype of any tried binding has its canonical form
in the explored set produced by `superStep`. -/
theorem superStep_inserted (simplify canon : Ty → Ty)
    (supers : Ty → List Ty) (v : Nat) (tried : List (Ty × Bool))
    (explored : List Ty) (t : Ty × Bool) (s s' : Ty) (ht : t ∈ tried)
    (hs : s ∈ supers t.1)
    (hck : checkTypeOfBinding simplify v (some s) = some s') :
    canon s' ∈ (superStep simplify canon supers v tried explored).2 := by
  unfold superStep
  exact superStep_mem simplify canon supers v tried ([], explored) t s s' ht
    hs hck

/-- When the alternative-literal phase adds nothing, the first round
transition is exactly the supertype step over the first round's
bindings. -/
theorem tvbStepFirst_litEmpty (simplify canon : Ty → Ty)
    (supers : Ty → List Ty) (v : Nat) (altLits : List Ty) (st0 : TvbState)
    (h : (literalPhase canon altLits
      (noteVisited canon st0.bindings st0.explored)).1 = []) :
    tvbStepFirst simplify canon supers v altLits st0 =
      (if (superStep simplify canon supers v st0.bindings
            (noteVisited canon st0.bindings st0.explored)).1 = [] then none
       else some ⟨(superStep simplify canon supers v st0.bindings
            (noteVisited canon st0.bindings st0.explored)).1,
          (superStep simplify canon supers v st0.bindings
            (noteVisited canon st0.bindings st0.explored)).2⟩) := by
  unfold tvbStepFirst
  rw [if_neg (by simp [h])]
  rw [literalPhase_empty_explored canon altLits _ h]

/-- Along a run whose alternative-literal phase adds nothing, every
accepted supertype of every binding tried in rounds up to `n` is
canonically explored at round `n + 1`. -/
theorem tvbRounds_dead (simplify canon : Ty → Ty) (supers : Ty → List Ty)
    (v : Nat) (altLits : List Ty) (init : List (Ty × Bool))
    (hlit : (literalPhase canon altLits (noteVisited canon init [])).1
      = []) :
    ∀ n st,
      tvbRounds simplify canon supers v altLits init (n + 1) = some st →
      ∀ t ∈ tvbTried simplify canon supers v altLits init n,
        ∀ s ∈ supers t.1, ∀ s',
          checkTypeOfBinding simplify v (some s) = some s' →
          canon s' ∈ st.explored := by
  intro n
  induction n with
  | zero =>
    intro st h1 t ht s hs s' hck
    have h1' : tvbStepFirst simplify canon supers v altLits ⟨init, []⟩
        = some st := h1
    rw [tvbStepFirst_litEmpty simplify canon supers v altLits ⟨init, []⟩
      (by simpa using hlit)] at h1'
    split at h1'
    · cases h1'
    · cases h1'
      exact superStep_inserted simplify canon supers v init _ t s s' ht hs
        hck
  | succ n ih =>
    intro st h1 t ht s hs s' hck
    rw [show (n + 1 + 1) = (n + 1) + 1 from rfl] at h1
    rw [tvbRounds] at h1
    cases hr : tvbRounds simplify canon supers v altLits init (n + 1) with
    | none =>
      rw [hr] at h1
      cases h1
    | some st1 =>
      rw [hr] at h1
      dsimp only at h1
      rw [if_neg (show ¬(n + 1 = 0) by omega)] at h1
      unfold tvbStepLater at h1
      dsimp only at h1
      split at h1
      · cases h1
      · cases h1
        have htr : tvbTried simplify canon supers v altLits init (n + 1)
            = tvbTried simplify canon supers v altLits init n
              ++ st1.bindings := by
          rw [tvbTried, hr]
        rw [htr] at ht
        rcases List.mem_append.mp ht with h | h
        · exact superStep_explored_mem simplify canon supers v _ _ _
            (ih st1 hr t h s hs s' hck)
        · exact superStep_inserted simplify canon supers v st1.bindings _ t
            s s' h hs hck

/-- Claim C6, counterexample: when the first round's candidates fail and
untried alternative literal types exist, the second round consists of
those literal types — here `base 1`, flagged for opening — and not of
the (filtered, deduplicated) direct supertypes of the previously tried
types, which here form the empty set. -/
theorem tvbRounds_literal_counterexample :
    tvbRounds id id (fun _ => []) 0 [Ty.base 1] [(Ty.base 0, false)] 1
        = some ⟨[(Ty.base 1, true)], [Ty.base 0, Ty.base 1]⟩ ∧
      (superStep id id (fun _ => []) 0
          (tvbTried id id (fun _ => []) 0 [Ty.base 1] [(Ty.base 0, false)]
            0)
          [Ty.base 0]).1 = [] := by
  constructor <;> rfl

/-- Claim C6, amended: in a run of `tryTypeVariableBindings` whose
first-round alternative-literal fallback adds no new candidate (when it
does, the second round consists of those literal types instead), every
round after the first is the supertype step over the immediately
preceding round's bindings — each direct supertype filtered through
`checkTypeOfBinding` and deduplicated by canonical form against all
types already explored — and this set moreover equals the same supertype
step taken over every type tried in all earlier rounds, because the
accepted supertypes of older rounds are already explored. -/
theorem tvbRounds_supertype_rounds (simplify canon : Ty → Ty)
    (supers : Ty → List Ty) (v : Nat) (altLits : List Ty)
    (init : List (Ty × Bool))
    (hlit : (literalPhase canon altLits (noteVisited canon init [])).1
      = []) :
    ∀ n st st',
      tvbRounds simplify canon supers v altLits init n = some st →
      tvbRounds simplify canon supers v altLits init (n + 1) = some st' →
      st'.bindings = (superStep simplify canon supers v st.bindings
          (if n = 0 then noteVisited canon init [] else st.explored)).1 ∧
        st'.bindings = (superStep simplify canon supers v
          (tvbTried simplify canon supers v altLits init n)
          (if n = 0 then noteVisited canon init [] else st.explored)).1 := by
  intro n st st' h1 h2
  cases n with
  | zero =>
    have hst : st = ⟨init, []⟩ := by
      have h0 : tvbRounds simplify canon supers v altLits init 0
          = some ⟨init, []⟩ := rfl
      rw [h0] at h1
      exact (Option.some.inj h1).symm
    subst hst
    have h2' : tvbStepFirst simplify canon supers v altLits ⟨init, []⟩
        = some st' := h2
    rw [tvbStepFirst_litEmpty simplify canon supers v altLits ⟨init, []⟩
      (by simpa using hlit)] at h2'
    split at h2'
    · cases h2'
    · cases h2'
      exact ⟨rfl, rfl⟩
  | succ n =>
    rw [show (n + 1 + 1) = (n + 1) + 1 from rfl] at h2
    rw [tvbRounds] at h2
    rw [h1] at h2
    dsimp only at h2
    rw [if_neg (show ¬(n + 1 = 0) by omega)] at h2
    unfold tvbStepLater at h2
    dsimp only at h2
    split at h2
    · cases h2
    · cases h2
      have htr : tvbTried simplify canon supers v altLits init (n + 1)
          = tvbTried simplify canon supers v altLits init n
            ++ st.bindings := by
        rw [tvbTried, h1]
      rw [htr, if_neg (show ¬(n + 1 = 0) by omega)]
      refine ⟨rfl, ?_⟩
      rw [superStep_append_dead simplify canon supers v _ st.bindings
        st.explored (tvbRounds_dead simplify canon supers v altLits init
          hlit n st h1)]

/-- Witness for `tvbRounds_supertype_rounds`: with no alternative
literal types and a single supertype, the second round is exactly the
supertype step over the first round. -/
theorem tvbRounds_supertype_rounds_witness :
    (⟨[(Ty.base 9, false)], [Ty.base 0, Ty.base 9]⟩ : TvbState).bindings
      = (superStep id id (fun _ => [Ty.base 9]) 0
          (tvbTried id id (fun _ => [Ty.base 9]) 0 [] [(Ty.base 0, false)]
            0)
          (if 0 = 0 then noteVisited id [(Ty.base 0, false)] []
           else (⟨[(Ty.base 0, false)], []⟩ : TvbState).explored)).1 :=
  (tvbRounds_supertype_rounds id id (fun _ => [Ty.base 9]) 0 []
      [(Ty.base 0, false)] rfl 0 ⟨[(Ty.base 0, false)], []⟩
      ⟨[(Ty.base 9, false)], [Ty.base 0, Ty.base 9]⟩ rfl rfl).2

/-- Re-applying the journaled previous value undoes a binding update. -/
theorem updateBinding_cancel (b : Nat → Option Nat) (v : Nat)
    (t : Option Nat) :
    updateBinding (updateBinding b v t) v (b v) = b := by
  funext w
  unfold updateBinding
  by_cases h : w = v <;> simp [h]

/-- Every valid in-scope operation preserves the scope invariant. -/
theorem applyOp_scopeInv (s t : SolverCS) (op : SolverOp)
    (hv : validOp t op = true) (hinv : ScopeInv s t) :
    ScopeInv s (applyOp t op) := by
  obtain ⟨⟨e, he⟩, ⟨J, hJ, hrep⟩, ⟨R, hR, hperm⟩, ⟨r, hr⟩, hfresh⟩ := hinv
  cases op with
  | pushOverload o =>
    exact ⟨⟨e, he⟩, ⟨J, hJ, hrep⟩, ⟨R, hR, hperm⟩, ⟨r, hr⟩, hfresh⟩
  | addTypeVariable v =>
    refine ⟨⟨e ++ [v], ?_⟩, ⟨J, hJ, hrep⟩, ⟨R, hR, hperm⟩, ⟨r, hr⟩, hfresh⟩
    simp [applyOp, he]
  | assignFixed v tv =>
    refine ⟨⟨e, he⟩, ⟨J ++ [(v, t.bindings v)], ?_, ?_⟩,
      ⟨R, hR, hperm⟩, ⟨r, hr⟩, hfresh⟩
    · simp [applyOp, hJ]
    · simp only [applyOp, List.reverse_append, List.reverse_singleton]
      rw [List.singleton_append, List.foldl_cons]
      dsimp only
      rw [updateBinding_cancel]
      exact hrep
  | retire c =>
    unfold validOp at hv
    replace hv : c ∈ t.constraints := by simpa using hv
    refine ⟨⟨e, he⟩, ⟨J, hJ, hrep⟩, ⟨c :: R, ?_, ?_⟩, ⟨r, hr⟩, hfresh⟩
    · simp [applyOp, hR]
    · dsimp only [applyOp]
      have h1 : List.Perm (t.constraints.erase c ++ (c :: R))
          (c :: (t.constraints.erase c ++ R)) := List.perm_middle
      have h2 : List.Perm (c :: t.constraints.erase c) t.constraints :=
        (List.perm_cons_erase hv).symm
      exact (h1.trans (h2.append_right R)).trans hperm
  | generate c =>
    unfold validOp at hv
    rw [Bool.and_eq_true] at hv
    have hnc : c ∉ t.constraints := by
      have := hv.1
      simp at this
      exact this
    have hnr : c ∉ t.retiredConstraints := by
      have := hv.2
      simp at this
      exact this
    have hfreshc : c ∉ s.constraints := by
      intro hcs
      have : c ∈ t.constraints ++ R :=
        hperm.symm.mem_iff.mp (List.mem_append.mpr (Or.inl hcs))
      rcases List.mem_append.mp this with h | h
      · exact hnc h
      · exact hnr (by rw [hR]; exact List.mem_append.mpr (Or.inl h))
    clear hv
    refine ⟨⟨e, he⟩, ⟨J, hJ, hrep⟩, ⟨R, hR, ?_⟩, ⟨r, hr⟩, ?_⟩
    · dsimp only [applyOp]
      have h1 : t.constraints ++ [c] ++ R = t.constraints ++ (c :: R) := by
        simp
      rw [h1]
      have h2 : List.Perm (t.constraints ++ (c :: R))
          (c :: (t.constraints ++ R)) := List.perm_middle
      have h3 : List.Perm (c :: (t.constraints ++ R))
          (c :: (s.constraints ++ t.generatedConstraints)) :=
        hperm.cons c
      have h4 : List.Perm (c :: (s.constraints ++ t.generatedConstraints))
          (s.constraints ++ c :: t.generatedConstraints) :=
        List.perm_middle.symm
      exact (h2.trans h3).trans h4
    · intro d hd
      rcases List.mem_cons.mp hd with h | h
      · subst h; exact hfreshc
      · exact hfresh d h
  | pushRestriction x =>
    refine ⟨⟨e, he⟩, ⟨J, hJ, hrep⟩, ⟨R, hR, hperm⟩, ⟨r ++ [x], ?_⟩, hfresh⟩
    simp [applyOp, hr]
  | increaseScore n =>
    exact ⟨⟨e, he⟩, ⟨J, hJ, hrep⟩, ⟨R, hR, hperm⟩, ⟨r, hr⟩, hfresh⟩
  | recordFailed c =>
    exact ⟨⟨e, he⟩, ⟨J, hJ, hrep⟩, ⟨R, hR, hperm⟩, ⟨r, hr⟩, hfresh⟩

/-- A valid operation sequence preserves the scope invariant. -/
theorem applyOps_scopeInv (s : SolverCS) (ops : List SolverOp) :
    ∀ t : SolverCS, validOps t ops = true → ScopeInv s t →
      ScopeInv s (applyOps t ops) := by
  induction ops with
  | nil => intro t _ h; exact h
  | cons op ops ih =>
    intro t hv hinv
    rw [validOps] at hv
    rw [Bool.and_eq_true] at hv
    exact ih (applyOp t op) hv.2 (applyOp_scopeInv s t op hv.1 hinv)

/-- Opening a scope establishes the scope invariant. -/
theorem scopeEnter_scopeInv (s : SolverCS) :
    ScopeInv s (scopeEnter s).2 := by
  refine ⟨⟨[], by simp [scopeEnter]⟩, ⟨[], by simp [scopeEnter], rfl⟩,
    ⟨[], by simp [scopeEnter], ?_⟩, ⟨[], by simp [scopeEnter]⟩, ?_⟩
  · simp [scopeEnter]
  · intro c hc
    simp [scopeEnter] at hc

/-- Claim C1: for every solver scope that is opened and then exited
after any valid sequence of in-scope operations (in particular along a
failing branch, `recordFailed` included), scope exit restores the
observable solver state to its pre-scope value: the resolved-overloads
head pointer, the type-variable list, the fixed-type bindings (via the
reverse-replayed saved-bindings journal, itself truncated back), the
active constraint list (the retired constraints move back in and the
constraints generated inside the scope are erased, leaving a
permutation of the pre-scope list), the retired-constraints list, the
restriction table, the generated-constraints pointer, the score, and
the cleared failed-constraint flag. -/
theorem solverScope_roundtrip (s : SolverCS) (ops : List SolverOp)
    (hv : validOps (scopeEnter s).2 ops = true) :
    (scopeExit (scopeEnter s).1
        (applyOps (scopeEnter s).2 ops)).resolvedOverloadSets
        = s.resolvedOverloadSets ∧
      (scopeExit (scopeEnter s).1
          (applyOps (scopeEnter s).2 ops)).typeVariables
        = s.typeVariables ∧
      (scopeExit (scopeEnter s).1 (applyOps (scopeEnter s).2 ops)).bindings
        = s.bindings ∧
      (scopeExit (scopeEnter s).1
          (applyOps (scopeEnter s).2 ops)).savedBindings
        = s.savedBindings ∧
      List.Perm
        (scopeExit (scopeEnter s).1
          (applyOps (scopeEnter s).2 ops)).constraints
        s.constraints ∧
      (scopeExit (scopeEnter s).1
          (applyOps (scopeEnter s).2 ops)).retiredConstraints
        = s.retiredConstraints ∧
      (scopeExit (scopeEnter s).1
          (applyOps (scopeEnter s).2 ops)).constraintRestrictions
        = s.constraintRestrictions ∧
      (scopeExit (scopeEnter s).1
          (applyOps (scopeEnter s).2 ops)).generatedConstraints
        = s.generatedConstraints ∧
      (scopeExit (scopeEnter s).1
          (applyOps (scopeEnter s).2 ops)).currentScore
        = s.currentScore ∧
      (scopeExit (scopeEnter s).1
          (applyOps (scopeEnter s).2 ops)).failedConstraint = none := by
  obtain ⟨⟨e, he⟩, ⟨J, hJ, hrep⟩, ⟨R, hR, hperm⟩, ⟨r, hr⟩, hfresh⟩ :=
    applyOps_scopeInv s ops (scopeEnter s).2 hv (scopeEnter_scopeInv s)
  set t := applyOps (scopeEnter s).2 ops with ht
  have h_tv : t.typeVariables.take s.typeVariables.length
      = s.typeVariables := by
    rw [he]; exact List.take_left _ _
  have h_lenJ : t.savedBindings.length - s.savedBindings.length
      = J.length := by
    rw [hJ]; simp
  have h_takeJ : t.savedBindings.reverse.take J.length = J.reverse := by
    rw [hJ, List.reverse_append]
    have hlen : J.reverse.length = J.length := by simp
    rw [← hlen]
    exact List.take_left _ _
  have h_bind :
      (t.savedBindings.reverse.take
        (t.savedBindings.length - s.savedBindings.length)).foldl
        (fun b p => updateBinding b p.1 p.2) t.bindings = s.bindings := by
    rw [h_lenJ, h_takeJ]; exact hrep
  have h_sb : t.savedBindings.take
      (t.savedBindings.length -
        (t.savedBindings.length - s.savedBindings.length))
      = s.savedBindings := by
    rw [h_lenJ]
    have : t.savedBindings.length - J.length = s.savedBindings.length := by
      rw [hJ]; simp
    rw [this, hJ]
    exact List.take_left _ _
  have h_lenR : t.retiredConstraints.length - s.retiredConstraints.length
      = R.length := by
    rw [hR]; simp
  have h_takeR : t.retiredConstraints.take R.length = R := by
    rw [hR]; exact List.take_left _ _
  have h_dropR : t.retiredConstraints.drop R.length
      = s.retiredConstraints := by
    rw [hR]; exact List.drop_left _ _
  have h_filter : List.Perm
      ((t.constraints ++ R).filter
        (fun c => !t.generatedConstraints.contains c))
      s.constraints := by
    have hp1 := hperm.filter (fun c => !t.generatedConstraints.contains c)
    rw [List.filter_append] at hp1
    have hp3 : s.constraints.filter
        (fun c => !t.generatedConstraints.contains c) = s.constraints := by
      rw [List.filter_eq_self]
      intro a ha
      simp only [Bool.not_eq_true', ← Bool.not_eq_true]
      intro hc
      exact hfresh a (by simpa using hc) ha
    have hp4 : t.generatedConstraints.filter
        (fun c => !t.generatedConstraints.contains c) = [] := by
      rw [List.filter_eq_nil_iff]
      intro a ha
      simp [ha]
    rw [List.filter_append] at hp1
    rw [hp3, hp4, List.append_nil] at hp1
    rw [List.filter_append]
    exact hp1
  have h_restr : t.constraintRestrictions.take
      s.constraintRestrictions.length = s.constraintRestrictions := by
    rw [hr]; exact List.take_left _ _
  show _ ∧ _ ∧ _ ∧ _ ∧ _ ∧ _ ∧ _ ∧ _ ∧ _ ∧ _
  unfold scopeExit restoreTypeVariableBindings scopeEnter
  dsimp only
  refine ⟨rfl, h_tv, ?_, ?_, ?_, ?_, h_restr, rfl, rfl, rfl⟩
  · exact h_bind
  · exact h_sb
  · rw [h_lenR, h_takeR]
    exact (h_filter.trans (List.Perm.refl s.constraints))
  · rw [h_lenR, h_dropR]

/-- Witness for `solverScope_roundtrip`: a scope performing one
operation of every kind — including a failing one — exits with the
score restored and the failure flag cleared. -/
theorem solverScope_roundtrip_witness :
    validOps
        (scopeEnter ⟨[1], [2], fun _ => none, [], [10, 11], [12], [13],
          [14], 5, none⟩).2
        [SolverOp.pushOverload 7, SolverOp.addTypeVariable 3,
          SolverOp.assignFixed 2 (some 42), SolverOp.retire 10,
          SolverOp.generate 20, SolverOp.pushRestriction 9,
          SolverOp.increaseScore 4, SolverOp.recordFailed 11] = true ∧
      (scopeExit
          (scopeEnter ⟨[1], [2], fun _ => none, [], [10, 11], [12], [13],
            [14], 5, none⟩).1
          (applyOps
            (scopeEnter ⟨[1], [2], fun _ => none, [], [10, 11], [12],
              [13], [14], 5, none⟩).2
            [SolverOp.pushOverload 7, SolverOp.addTypeVariable 3,
              SolverOp.assignFixed 2 (some 42), SolverOp.retire 10,
              SolverOp.generate 20, SolverOp.pushRestriction 9,
              SolverOp.increaseScore 4,
              SolverOp.recordFailed 11])).currentScore = 5 ∧
      (scopeExit
          (scopeEnter ⟨[1], [2], fun _ => none, [], [10, 11], [12], [13],
            [14], 5, none⟩).1
          (applyOps
            (scopeEnter ⟨[1], [2], fun _ => none, [], [10, 11], [12],
              [13], [14], 5, none⟩).2
            [SolverOp.pushOverload 7, SolverOp.addTypeVariable 3,
              SolverOp.assignFixed 2 (some 42), SolverOp.retire 10,
              SolverOp.generate 20, SolverOp.pushRestriction 9,
              SolverOp.increaseScore 4,
              SolverOp.recordFailed 11])).failedConstraint = none := by
  have T := solverScope_roundtrip
    ⟨[1], [2], fun _ => none, [], [10, 11], [12], [13], [14], 5, none⟩
    [SolverOp.pushOverload 7, SolverOp.addTypeVariable 3,
      SolverOp.assignFixed 2 (some 42), SolverOp.retire 10,
      SolverOp.generate 20, SolverOp.pushRestriction 9,
      SolverOp.increaseScore 4, SolverOp.recordFailed 11] rfl
  exact ⟨rfl, T.2.2.2.2.2.2.2.2.1, T.2.2.2.2.2.2.2.2.2⟩
